/-
Verification of the Performia real-time tracking core against its
natural-language specification.

The Lean definitions below are shallow embeddings, translated directly from
the Python sources:
  backend/src/realtime/analyzer.py        (RingBuffer, RealtimeAnalyzer.track_beat)
  backend/src/realtime/position_tracker.py (SongMapPositionTracker)
  backend/src/realtime/message_bus.py      (AgentMessage, AgentMessageBus)

Modelling conventions:
  * Python floats are modelled as rationals where only field arithmetic and
    comparisons occur, and as reals where the code applies np.exp.
  * numpy arrays of samples are modelled as total functions from positions;
    Python slice assignment becomes a pointwise update.
  * Exceptions and asyncio.QueueFull become explicit result values.
  * asyncio.PriorityQueue (library code, not part of the repository) is
    modelled by its documented semantics: entries are retrieved lowest
    first, with comparison being the dataclass order of AgentMessage,
    which compares only the priority field.
-/
import Mathlib

set_option linter.unusedVariables false

/-! ## RingBuffer (analyzer.py lines 15-62) -/

/-- The last `n` elements of a list, in order (everything when n ≥ length). -/
def lastN {α : Type} (n : ℕ) (l : List α) : List α :=
  l.drop (l.length - n)

/-- Embedding of `RingBuffer`: `buffer` is the numpy array viewed as a total
function on positions (only positions `< size` are ever read), `write_pos`
the write cursor. -/
structure RingBuffer (α : Type) where
  size : ℕ
  buffer : ℕ → α
  write_pos : ℕ

/-- `RingBuffer.__init__`: a zero-filled array and cursor 0. -/
def RingBuffer.init (α : Type) [Zero α] (size : ℕ) : RingBuffer α :=
  ⟨size, fun _ => 0, 0⟩

/-- The data actually stored by `RingBuffer.write`: oversized data keeps only
its trailing `size` samples (`data = data[-self.size:]`). -/
def keepData {α : Type} (C : ℕ) (d : List α) : List α :=
  if C < d.length then lastN C d else d

/-- `RingBuffer.write`: oversized data keeps only its trailing `size`
samples; data is then spliced at the cursor, wrapping around the end. -/
def RingBuffer.write {α : Type} (rb : RingBuffer α) (data0 : List α) : RingBuffer α :=
  let data := keepData rb.size data0
  let dataLen := data.length
  let space_to_end := rb.size - rb.write_pos
  if dataLen ≤ space_to_end then
    { rb with
      buffer := fun i =>
        if rb.write_pos ≤ i ∧ i < rb.write_pos + dataLen then
          data.getD (i - rb.write_pos) (rb.buffer i)
        else rb.buffer i,
      write_pos := (rb.write_pos + dataLen) % rb.size }
  else
    let remaining := dataLen - space_to_end
    { rb with
      buffer := fun i =>
        if rb.write_pos ≤ i ∧ i < rb.size then
          data.getD (i - rb.write_pos) (rb.buffer i)
        else if i < remaining then
          data.getD (space_to_end + i) (rb.buffer i)
        else rb.buffer i,
      write_pos := remaining }

/-- `RingBuffer.read`: the most recent `min n size` samples, oldest first;
`none` stands for the omitted argument (whole buffer). -/
def RingBuffer.read {α : Type} (rb : RingBuffer α) (n? : Option ℕ) : List α :=
  let n := min (n?.getD rb.size) rb.size
  if n ≤ rb.write_pos then
    List.ofFn (fun i : Fin n => rb.buffer (rb.write_pos - n + i.val))
  else
    let part1_size := n - rb.write_pos
    (List.ofFn fun i : Fin part1_size => rb.buffer (rb.size - part1_size + i.val)) ++
    (List.ofFn fun i : Fin rb.write_pos => rb.buffer i.val)

example :
    (((RingBuffer.init ℤ 3).write [1, 2]).write [3, 4]).read (some 3) = [2, 3, 4] := by
  decide

example :
    ((RingBuffer.init ℤ 3).write [1, 2, 3, 4]).read (some 2) = [3, 4] := by
  decide

example : (RingBuffer.init ℤ 3).read (some 2) = [0, 0] := by decide

/-! ### Ring-buffer correctness machinery (for claims C3 and C10)

The invariant ties a reached buffer state to the history `H` of stored
samples: slot `i` holds the most recent history sample whose position is
congruent to `i` modulo the capacity (position `i + C * ((|H| - 1 - i) / C)`),
and zero if no sample ever landed there. -/

lemma lastN_length {α : Type} (n : ℕ) (l : List α) :
    (lastN n l).length = min n l.length := by
  simp [lastN]; omega

lemma keepData_length {α : Type} (C : ℕ) (d : List α) :
    (keepData C d).length = min d.length C := by
  unfold keepData
  split <;> simp [lastN_length] <;> omega

/-- The sample that ends up in slot `i` of a capacity-`C` ring after the
sample stream `H` has been stored. -/
def histSlot {α : Type} [Zero α] (C : ℕ) (H : List α) (i : ℕ) : α :=
  if i < H.length then H.getD (i + C * ((H.length - 1 - i) / C)) 0 else 0

/-- Relation between a ring-buffer state and the history of stored samples. -/
structure RBInv {α : Type} [Zero α] (C : ℕ) (H : List α) (s : RingBuffer α) : Prop where
  size_eq : s.size = C
  wp_eq : s.write_pos = H.length % C
  content : ∀ i < C, s.buffer i = histSlot C H i

lemma RBInv.init (α : Type) [Zero α] (C : ℕ) : RBInv C [] (RingBuffer.init α C) := by
  refine ⟨rfl, by simp [RingBuffer.init], ?_⟩
  intro i _
  simp [RingBuffer.init, histSlot]

lemma nat_div_eq {C q x : ℕ} (h1 : C * q ≤ x) (h2 : x < C * q + C) : x / C = q :=
  Nat.div_eq_of_lt_le (by rw [mul_comm]; exact h1) (by rw [add_mul, one_mul, mul_comm]; exact h2)

lemma histSlot_append_covered {α : Type} [Zero α] {C : ℕ} (hC : 0 < C)
    (H K : List α) (hdC : K.length ≤ C) {i : ℕ} (hi : i < C)
    (h1 : H.length % C ≤ i) (h2 : i < H.length % C + K.length) :
    histSlot C (H ++ K) i = K.getD (i - H.length % C) 0 := by
  set r := H.length % C with hrdef
  set q := H.length / C with hqdef
  obtain ⟨M, hM⟩ : ∃ M, C * q = M := ⟨_, rfl⟩
  have hML : M + r = H.length := by rw [← hM, hrdef, hqdef]; exact Nat.div_add_mod _ _
  have hrC : r < C := by rw [hrdef]; exact Nat.mod_lt _ hC
  have hx : (H ++ K).length = H.length + K.length := by simp
  have hdiv : (H.length + K.length - 1 - i) / C = q :=
    nat_div_eq (by rw [hM]; omega) (by rw [hM]; omega)
  rw [histSlot, if_pos (by rw [hx]; omega), hx, hdiv]
  rw [List.getD_append_right _ _ _ _ (by rw [hM]; omega)]
  congr 1
  rw [hM]; omega

lemma histSlot_append_wrapped {α : Type} [Zero α] {C : ℕ} (hC : 0 < C)
    (H K : List α) (hdC : K.length ≤ C) {i : ℕ}
    (h2 : i + C < H.length % C + K.length) :
    histSlot C (H ++ K) i = K.getD (C - H.length % C + i) 0 := by
  set r := H.length % C with hrdef
  set q := H.length / C with hqdef
  obtain ⟨M, hM⟩ : ∃ M, C * q = M := ⟨_, rfl⟩
  have hML : M + r = H.length := by rw [← hM, hrdef, hqdef]; exact Nat.div_add_mod _ _
  have hrC : r < C := by rw [hrdef]; exact Nat.mod_lt _ hC
  have hx : (H ++ K).length = H.length + K.length := by simp
  have hsucc : C * (q + 1) = M + C := by rw [Nat.mul_succ, hM]
  have hdiv : (H.length + K.length - 1 - i) / C = q + 1 :=
    nat_div_eq (by rw [hsucc]; omega) (by rw [hsucc]; omega)
  rw [histSlot, if_pos (by rw [hx]; omega), hx, hdiv]
  rw [List.getD_append_right _ _ _ _ (by rw [hsucc]; omega)]
  congr 1
  rw [hsucc]; omega

lemma histSlot_append_frozen {α : Type} [Zero α] {C : ℕ} (hC : 0 < C)
    (H K : List α) (hdC : K.length ≤ C) {i : ℕ} (hi : i < C)
    (hout : H.length % C + K.length ≤ i ∨
      (i < H.length % C ∧ H.length % C + K.length ≤ C + i)) :
    histSlot C (H ++ K) i = histSlot C H i := by
  set r := H.length % C with hrdef
  set q := H.length / C with hqdef
  obtain ⟨M, hM⟩ : ∃ M, C * q = M := ⟨_, rfl⟩
  have hML : M + r = H.length := by rw [← hM, hrdef, hqdef]; exact Nat.div_add_mod _ _
  have hrC : r < C := by rw [hrdef]; exact Nat.mod_lt _ hC
  have hx : (H ++ K).length = H.length + K.length := by simp
  rcases Nat.eq_zero_or_pos q with hq0 | hq1
  · -- no full lap yet: H.length = r
    have hM0 : M = 0 := by rw [← hM, hq0, mul_zero]
    rcases Nat.lt_or_ge i H.length with hiL | hiL
    · -- i < H.length = r, so the frozen region below the cursor
      have hfroz : r + K.length ≤ C + i := by
        rcases hout with h | h
        · omega
        · exact h.2
      have hdiv : (H.length - 1 - i) / C = 0 := nat_div_eq (by omega) (by omega)
      have hdiv2 : (H.length + K.length - 1 - i) / C = 0 :=
        nat_div_eq (by omega) (by omega)
      rw [histSlot, histSlot, if_pos (by rw [hx]; omega), if_pos hiL, hx, hdiv, hdiv2]
      rw [List.getD_append _ _ _ _ (by omega)]
    · -- i ≥ H.length: slot never written, and the new write misses it too
      rw [histSlot, histSlot, if_neg (by rw [hx]; omega), if_neg (by omega)]
  · have hMC : C ≤ M := by
      rw [← hM]
      calc C = C * 1 := (mul_one C).symm
      _ ≤ C * q := Nat.mul_le_mul_left _ hq1
    have hiL : i < H.length := by omega
    obtain ⟨q1, hq1e⟩ : ∃ q1, q = q1 + 1 := ⟨q - 1, by omega⟩
    obtain ⟨M1, hM1⟩ : ∃ M1, C * q1 = M1 := ⟨_, rfl⟩
    have hM1M : M1 + C = M := by rw [← hM1, ← hM, hq1e, Nat.mul_succ]
    rcases Nat.lt_or_ge i r with hir | hir
    · -- below the cursor: both divs give q
      have hfroz : r + K.length ≤ C + i := by
        rcases hout with h | h
        · omega
        · exact h.2
      have hdiv : (H.length - 1 - i) / C = q := nat_div_eq (by rw [hM]; omega) (by rw [hM]; omega)
      have hdiv2 : (H.length + K.length - 1 - i) / C = q :=
        nat_div_eq (by rw [hM]; omega) (by rw [hM]; omega)
      rw [histSlot, histSlot, if_pos (by rw [hx]; omega), if_pos hiL, hx, hdiv, hdiv2]
      rw [List.getD_append _ _ _ _ (by rw [hM]; omega)]
    · -- at or above the cursor, above the written region: both divs give q - 1
      have hout2 : r + K.length ≤ i := by
        rcases hout with h | h
        · exact h
        · omega
      have hdiv : (H.length - 1 - i) / C = q1 :=
        nat_div_eq (by rw [hM1]; omega) (by rw [hM1]; omega)
      have hdiv2 : (H.length + K.length - 1 - i) / C = q1 :=
        nat_div_eq (by rw [hM1]; omega) (by rw [hM1]; omega)
      rw [histSlot, histSlot, if_pos (by rw [hx]; omega), if_pos hiL, hx, hdiv, hdiv2]
      rw [List.getD_append _ _ _ _ (by rw [hM1]; omega)]

/-- One `write` extends the stored history by the kept part of the data. -/
theorem RBInv.write_step {α : Type} [Zero α] {C : ℕ} {H : List α} {s : RingBuffer α}
    (hC : 0 < C) (inv : RBInv C H s) (data0 : List α) :
    RBInv C (H ++ keepData C data0) (s.write data0) := by
  obtain ⟨hsz, hwp, hcont⟩ := inv
  have hdC : (keepData C data0).length ≤ C := by rw [keepData_length]; omega
  have hrC : H.length % C < C := Nat.mod_lt _ hC
  have hrL : H.length % C ≤ H.length := Nat.mod_le _ _
  have hxlen : (H ++ keepData C data0).length
      = H.length + (keepData C data0).length := by simp
  rw [RingBuffer.write]
  simp only [hsz, hwp]
  split
  case isTrue hfit =>
    refine ⟨rfl, ?_, ?_⟩
    · show (H.length % C + (keepData C data0).length) % C = _
      rw [hxlen]
      exact Nat.mod_add_mod _ _ _
    · intro i hi
      by_cases hreg : H.length % C ≤ i ∧ i < H.length % C + (keepData C data0).length
      · show (if _ then _ else _) = _
        rw [if_pos hreg, histSlot_append_covered hC H _ hdC hi hreg.1 hreg.2,
          List.getD_eq_getElem _ _ (by omega), List.getD_eq_getElem _ _ (by omega)]
      · show (if _ then _ else _) = _
        rw [if_neg hreg, hcont i hi,
          ← histSlot_append_frozen hC H _ hdC hi (by omega)]
  case isFalse hfit =>
    refine ⟨rfl, ?_, ?_⟩
    · show (keepData C data0).length - (C - H.length % C) = _
      have h1 : (H.length + (keepData C data0).length) % C
          = (H.length % C + (keepData C data0).length) % C :=
        (Nat.mod_add_mod _ _ _).symm
      have h2 : (H.length % C + (keepData C data0).length) % C
          = (H.length % C + (keepData C data0).length - C) % C :=
        Nat.mod_eq_sub_mod (by omega)
      have h3 : (H.length % C + (keepData C data0).length - C) % C
          = H.length % C + (keepData C data0).length - C :=
        Nat.mod_eq_of_lt (by omega)
      rw [hxlen, h1, h2, h3]
      omega
    · intro i hi
      by_cases h1 : H.length % C ≤ i ∧ i < C
      · show (if _ then _ else _) = _
        rw [if_pos h1, histSlot_append_covered hC H _ hdC hi h1.1 (by omega),
          List.getD_eq_getElem _ _ (by omega), List.getD_eq_getElem _ _ (by omega)]
      · show (if _ then _ else _) = _
        rw [if_neg h1]
        by_cases h2 : i < (keepData C data0).length - (C - H.length % C)
        · rw [if_pos h2, histSlot_append_wrapped hC H _ hdC (by omega),
            List.getD_eq_getElem _ _ (by omega), List.getD_eq_getElem _ _ (by omega)]
        · rw [if_neg h2, hcont i hi,
            ← histSlot_append_frozen hC H _ hdC hi (by omega)]


lemma histSlot_val {α : Type} [Zero α] {C : ℕ} (hC : 0 < C) (H : List α) (i t : ℕ)
    (hi : i < C) (hk1 : C * t + i < H.length) (hk2 : H.length ≤ C * t + i + C) :
    histSlot C H i = H.getD (C * t + i) 0 := by
  obtain ⟨N, hN⟩ : ∃ N, C * t = N := ⟨_, rfl⟩
  rw [hN] at hk1 hk2 ⊢
  have hdiv : (H.length - 1 - i) / C = t := nat_div_eq (by rw [hN]; omega) (by rw [hN]; omega)
  rw [histSlot, if_pos (by omega), hdiv, hN]
  congr 1
  omega

lemma getD_drop {α : Type} (H : List α) (k j : ℕ) (d : α) (h : k + j < H.length) :
    (H.drop k).getD j d = H.getD (k + j) d := by
  rw [List.getD_eq_getElem _ _ (by simp; omega), List.getElem_drop,
    List.getD_eq_getElem _ _ h]

/-- Characterization of `read` from the invariant: the result is `min n C`
samples, namely the suffix of the stored history, padded in front with the
initial zeros whenever fewer than that many samples were ever stored. -/
theorem RBInv.read_eq {α : Type} [Zero α] {C : ℕ} {H : List α} {s : RingBuffer α}
    (hC : 0 < C) (inv : RBInv C H s) (n : ℕ) :
    s.read (some n) =
      List.replicate (min n C - min H.length (min n C)) 0
        ++ lastN (min H.length (min n C)) H := by
  obtain ⟨hsz, hwp, hcont⟩ := inv
  have hrC : H.length % C < C := Nat.mod_lt _ hC
  have hrL : H.length % C ≤ H.length := Nat.mod_le _ _
  obtain ⟨M, hM⟩ : ∃ M, C * (H.length / C) = M := ⟨_, rfl⟩
  have hML : M + H.length % C = H.length := by rw [← hM]; exact Nat.div_add_mod _ _
  have hrhslen : (List.replicate (min n C - min H.length (min n C)) (0 : α)
      ++ lastN (min H.length (min n C)) H).length = min n C := by
    simp [lastN_length]
  rw [RingBuffer.read]
  simp only [hsz, hwp, Option.getD_some]
  by_cases hbr : min n C ≤ H.length % C
  · rw [if_pos hbr]
    have hminLm : min H.length (min n C) = min n C := by omega
    apply List.ext_getElem
    · rw [hrhslen]
      simp
    · intro j hj1 hj2
      have hjm : j < min n C := by simpa using hj1
      rw [List.getElem_ofFn, ← List.getD_eq_getElem _ (0 : α) hj2]
      show s.buffer (H.length % C - min n C + j) = _
      rw [hcont (H.length % C - min n C + j) (by omega)]
      rw [histSlot_val hC H (H.length % C - min n C + j) (H.length / C) (by omega)
        (by rw [hM]; omega) (by rw [hM]; omega)]
      rw [List.getD_append_right _ _ _ _ (by simp; omega)]
      simp only [List.length_replicate]
      rw [lastN, getD_drop _ _ _ _ (by omega)]
      congr 1
      rw [hM]
      omega
  · rw [if_neg hbr]
    apply List.ext_getElem
    · rw [hrhslen]
      simp
      omega
    · intro j hj1 hj2
      have hjm : j < min n C := by
        rw [hrhslen] at hj2
        exact hj2
      rw [List.getElem_append, ← List.getD_eq_getElem _ (0 : α) hj2]
      simp only [List.length_ofFn]
      split
      next hjp =>
        rw [List.getElem_ofFn]
        rcases Nat.eq_zero_or_pos (H.length / C) with hq0 | hq1
        · have hM0 : M = 0 := by rw [← hM, hq0, mul_zero]
          show s.buffer (C - (min n C - H.length % C) + j) = _
          rw [hcont (C - (min n C - H.length % C) + j) (by omega)]
          rw [histSlot, if_neg (by omega)]
          rw [List.getD_append _ _ _ _ (by simp; omega)]
          rw [List.getD_eq_getElem _ _ (by simp; omega), List.getElem_replicate]
        · obtain ⟨q1, hq1e⟩ : ∃ q1, H.length / C = q1 + 1 := ⟨H.length / C - 1, by omega⟩
          obtain ⟨M1, hM1⟩ : ∃ M1, C * q1 = M1 := ⟨_, rfl⟩
          have hM1M : M1 + C = M := by rw [← hM1, ← hM, hq1e, Nat.mul_succ]
          show s.buffer (C - (min n C - H.length % C) + j) = _
          rw [hcont (C - (min n C - H.length % C) + j) (by omega)]
          rw [histSlot_val hC H (C - (min n C - H.length % C) + j) q1 (by omega)
            (by rw [hM1]; omega) (by rw [hM1]; omega)]
          rw [List.getD_append_right _ _ _ _ (by simp; omega)]
          simp only [List.length_replicate]
          rw [lastN, getD_drop _ _ _ _ (by omega)]
          congr 1
          rw [hM1]
          omega
      next hjp =>
        rw [List.getElem_ofFn]
        show s.buffer (j - (min n C - H.length % C)) = _
        rw [hcont (j - (min n C - H.length % C)) (by omega)]
        rw [histSlot_val hC H (j - (min n C - H.length % C)) (H.length / C) (by omega)
          (by rw [hM]; omega) (by rw [hM]; omega)]
        rw [List.getD_append_right _ _ _ _ (by simp; omega)]
        simp only [List.length_replicate]
        rw [lastN, getD_drop _ _ _ _ (by omega)]
        congr 1
        rw [hM]
        omega

/-! ### Fold-level history for a sequence of writes -/

/-- A whole sequence of `write` calls, from left to right. -/
def writeAll {α : Type} (s : RingBuffer α) (writes : List (List α)) : RingBuffer α :=
  writes.foldl RingBuffer.write s

/-- The samples actually stored by a sequence of writes (oversized writes
contribute only their kept tail). -/
def keptHist {α : Type} (C : ℕ) (writes : List (List α)) : List α :=
  (writes.map (keepData C)).flatten

lemma RBInv.writeAll_aux {α : Type} [Zero α] {C : ℕ} (hC : 0 < C)
    (writes : List (List α)) :
    ∀ (s : RingBuffer α) (H : List α), RBInv C H s →
      RBInv C (H ++ keptHist C writes) (writeAll s writes) := by
  induction writes with
  | nil => intro s H inv; simpa [writeAll, keptHist] using inv
  | cons w ws ih =>
    intro s H inv
    have step := inv.write_step hC w
    have := ih (s.write w) (H ++ keepData C w) step
    simpa [writeAll, keptHist, List.foldl_cons] using this

lemma RBInv.writeAll {α : Type} [Zero α] {C : ℕ} (hC : 0 < C)
    (writes : List (List α)) :
    RBInv C (keptHist C writes) (writeAll (RingBuffer.init α C) writes) := by
  have := RBInv.writeAll_aux hC writes (RingBuffer.init α C) [] (RBInv.init α C)
  simpa using this

/-! ### Suffix lemmas: the kept history has the same trailing samples as the
raw concatenation of everything ever passed to write. -/

lemma lastN_lastN {α : Type} (n m : ℕ) (l : List α) (h : n ≤ m) :
    lastN n (lastN m l) = lastN n l := by
  unfold lastN
  rw [List.length_drop, List.drop_drop]
  congr 1
  omega

lemma lastN_keepData {α : Type} (C : ℕ) (B : List α) :
    lastN C (keepData C B) = lastN C B := by
  unfold keepData
  split
  · exact lastN_lastN C C _ le_rfl
  · rfl

lemma lastN_append_of_le {α : Type} {C : ℕ} (A : List α) {B : List α}
    (h : C ≤ B.length) : lastN C (A ++ B) = lastN C B := by
  unfold lastN
  rw [List.length_append, List.drop_append_eq_append_drop,
    List.drop_eq_nil_of_le (by omega), List.nil_append]
  congr 1
  omega

lemma lastN_append_of_gt {α : Type} {C : ℕ} (A : List α) {B : List α}
    (h : B.length < C) : lastN C (A ++ B) = lastN (C - B.length) A ++ B := by
  unfold lastN
  rw [List.length_append, List.drop_append_eq_append_drop]
  rw [show A.length + B.length - C - A.length = 0 by omega, List.drop_zero]
  congr 2
  omega

lemma lastN_all {α : Type} {C : ℕ} {K : List α} (h : K.length ≤ C) :
    lastN C K = K := by
  unfold lastN
  rw [show K.length - C = 0 by omega, List.drop_zero]

lemma lastN_append_lastN {α : Type} (C : ℕ) (A B : List α) :
    lastN C (A ++ B) = lastN C (lastN C A ++ B) := by
  rcases le_or_lt C B.length with h | h
  · rw [lastN_append_of_le A h, lastN_append_of_le (lastN C A) h]
  · rw [lastN_append_of_gt A h, lastN_append_of_gt (lastN C A) h,
      lastN_lastN _ _ _ (by omega)]

lemma lastN_append_right_congr {α : Type} {C : ℕ} (w : List α) {K F : List α}
    (h : lastN C K = lastN C F) : lastN C (w ++ K) = lastN C (w ++ F) := by
  have hl := congrArg List.length h
  rw [lastN_length, lastN_length] at hl
  rcases le_or_lt C K.length with hK | hK
  · rw [lastN_append_of_le w hK, lastN_append_of_le w (by omega)]
    exact h
  · have hKF : K = F := by
      rw [lastN_all (by omega), lastN_all (by omega)] at h
      exact h
    rw [hKF]

lemma keptHist_lastN {α : Type} (C : ℕ) (writes : List (List α)) :
    lastN C (keptHist C writes) = lastN C writes.flatten := by
  induction writes with
  | nil => rfl
  | cons w ws ih =>
    show lastN C (keepData C w ++ keptHist C ws) = lastN C (w ++ ws.flatten)
    rw [lastN_append_lastN C (keepData C w), lastN_keepData,
      ← lastN_append_lastN C w]
    exact lastN_append_right_congr w ih

/-- Claim C3: for every RingBuffer capacity C ≥ 1, every n ≤ C, and every
sequence of write(data) calls whose concatenated data contains at least n
samples, a subsequent read(n) returns exactly the last n samples written, in
chronological (oldest-first) order, across all wraparound cases; read() with
no argument returns the whole buffer, i.e. behaves as read(C). -/
theorem C3_ringBuffer_read_last_n (α : Type) [Zero α] (C n : ℕ)
    (writes : List (List α)) (hC : 1 ≤ C) (hn : n ≤ C)
    (hlen : n ≤ writes.flatten.length) :
    (writeAll (RingBuffer.init α C) writes).read (some n) = lastN n writes.flatten
    ∧ (writeAll (RingBuffer.init α C) writes).read none
      = (writeAll (RingBuffer.init α C) writes).read (some C) := by
  have inv := RBInv.writeAll hC writes
  have hKlen : min C (keptHist C writes).length = min C writes.flatten.length := by
    have h := congrArg List.length (keptHist_lastN C writes)
    rw [lastN_length, lastN_length] at h
    omega
  refine ⟨?_, ?_⟩
  · rw [RBInv.read_eq hC inv n]
    have hm : min n C = n := by omega
    have hminH : min (keptHist C writes).length n = n := by
      omega
    rw [hm, hminH]
    rw [Nat.sub_self, List.replicate_zero, List.nil_append]
    calc lastN n (keptHist C writes)
        = lastN n (lastN C (keptHist C writes)) := (lastN_lastN n C _ hn).symm
      _ = lastN n (lastN C writes.flatten) := by rw [keptHist_lastN]
      _ = lastN n writes.flatten := lastN_lastN n C _ hn
  · rw [RingBuffer.read, RingBuffer.read]
    simp only [Option.getD_none, Option.getD_some, inv.size_eq, min_self]
    rfl

/-- Witness for C3 at a concrete wraparound case: capacity 3, writes
[1,2] then [3,4], read(3) yields [2,3,4]. -/
theorem C3_ringBuffer_read_last_n_witness :
    ((1 : ℕ) ≤ 3 ∧ (3 : ℕ) ≤ 3 ∧ 3 ≤ ([[1, 2], [3, 4]] : List (List ℤ)).flatten.length)
    ∧ (writeAll (RingBuffer.init ℤ 3) [[1, 2], [3, 4]]).read (some 3)
        = lastN 3 ([[1, 2], [3, 4]] : List (List ℤ)).flatten :=
  ⟨⟨by decide, by decide, by decide⟩,
    (C3_ringBuffer_read_last_n ℤ 3 3 [[1, 2], [3, 4]] (by decide) (by decide)
      (by decide)).1⟩

/-- Claim C10: RingBuffer.read(n) is total for every n ≥ 0: on any reachable
buffer it returns exactly min(n, capacity) samples and never fails, and
before any write it returns the zero samples the buffer was initialized
with. -/
theorem C10_ringBuffer_read_total (α : Type) [Zero α] (C n : ℕ)
    (writes : List (List α)) (hC : 1 ≤ C) :
    ((writeAll (RingBuffer.init α C) writes).read (some n)).length = min n C
    ∧ (RingBuffer.init α C).read (some n) = List.replicate (min n C) 0 := by
  constructor
  · rw [RBInv.read_eq hC (RBInv.writeAll hC writes) n]
    simp [lastN_length]
  · rw [RBInv.read_eq hC (RBInv.init α C) n]
    simp [lastN]

/-- Witness for C10: capacity 2, one write, read(5) still returns exactly
2 samples; a fresh buffer reads back zeros. -/
theorem C10_ringBuffer_read_total_witness :
    (1 : ℕ) ≤ 2
    ∧ (((writeAll (RingBuffer.init ℤ 2) [[7]]).read (some 5)).length = min 5 2
      ∧ (RingBuffer.init ℤ 2).read (some 5) = List.replicate (min 5 2) 0) :=
  ⟨by decide, C10_ringBuffer_read_total ℤ 2 5 [[7]] (by decide)⟩

/-! ## AgentMessageBus (message_bus.py)

The bus itself stores messages in an `asyncio.PriorityQueue`, which is
standard-library code, not part of this repository.  It is modelled by its
documented behaviour: retrieval returns a smallest entry first, where entry
comparison is the `dataclass(order=True)` order of `AgentMessage`, i.e. by
the `priority` field alone (every other field carries `compare=False`).
Among equal-priority entries the heap order is unspecified; the model takes
the earliest-queued minimum.  Timestamps and measured durations are floats,
modelled as rationals; the payload dict is modelled as an association list;
the `id(self)`-based auto-generated message id (memory identity) is outside
a shallow embedding, so `message_id` is taken as given. -/

/-- `MessagePriority` (IntEnum): CRITICAL = 0, HIGH = 1, NORMAL = 2, LOW = 3. -/
inductive MessagePriority where
  | CRITICAL
  | HIGH
  | NORMAL
  | LOW
deriving DecidableEq

/-- The integer value of the IntEnum member. -/
def MessagePriority.ordinal : MessagePriority → ℕ
  | .CRITICAL => 0
  | .HIGH => 1
  | .NORMAL => 2
  | .LOW => 3

/-- `AgentMessage`: priority, timestamp, routing fields, type, payload, id. -/
structure AgentMessage where
  priority : MessagePriority
  timestamp : ℚ
  from_agent : String
  to_agent : String
  message_type : String
  payload : List (String × String)
  message_id : String
deriving DecidableEq

/-- `MessageStats`: publish/delivery counters kept by the bus. -/
structure MessageStats where
  messages_published : ℕ
  messages_delivered : ℕ
  total_publish_time : ℚ
  total_delivery_time : ℚ
  message_type_counts : String → ℕ
  priority_counts : MessagePriority → ℕ

/-- `MessageStats.__init__`: everything zero. -/
def MessageStats.init : MessageStats :=
  ⟨0, 0, 0, 0, fun _ => 0, fun _ => 0⟩

/-- `MessageStats.record_publish`. -/
def MessageStats.record_publish (st : MessageStats) (m : AgentMessage)
    (duration : ℚ) : MessageStats :=
  { st with
    messages_published := st.messages_published + 1
    total_publish_time := st.total_publish_time + duration
    message_type_counts := fun t =>
      if t = m.message_type then st.message_type_counts t + 1
      else st.message_type_counts t
    priority_counts := fun p =>
      if p = m.priority then st.priority_counts p + 1 else st.priority_counts p }

/-- `MessageStats.record_delivery`. -/
def MessageStats.record_delivery (st : MessageStats) (duration : ℚ) : MessageStats :=
  { st with
    messages_delivered := st.messages_delivered + 1
    total_delivery_time := st.total_delivery_time + duration }

/-- A subscription entry: the handler identity, the `min_priority` passed to
`subscribe`, and the handler body, which either succeeds or raises. -/
structure Subscriber where
  sid : ℕ
  min_priority : MessagePriority
  behavior : AgentMessage → Except String Unit

/-- Running one subscription on a message: `subscribe` wraps the handler with
a priority filter unless `min_priority` is LOW (`message.priority <=
min_priority` under the IntEnum order). -/
def Subscriber.run (s : Subscriber) (m : AgentMessage) : Except String Unit :=
  if s.min_priority ≠ MessagePriority.LOW then
    if m.priority.ordinal ≤ s.min_priority.ordinal then s.behavior m
    else Except.ok ()
  else s.behavior m

/-- The bus state: bounded priority queue, subscriber registry, statistics.
(The asyncio task handle and the `running` flag drive the event loop and have
no bearing on the claims; `registered_agents` is only used for logging.) -/
structure AgentMessageBus where
  max_queue_size : ℕ
  message_queue : List AgentMessage
  subscribers : String → List Subscriber
  stats : MessageStats

/-- `AgentMessageBus.__init__` (max_queue_size defaults to 10000). -/
def AgentMessageBus.init (max_queue_size : ℕ) : AgentMessageBus :=
  ⟨max_queue_size, [], fun _ => [], MessageStats.init⟩

/-- Result of a `publish` call: enqueued, or the `asyncio.QueueFull` that
`put_nowait` raises on a full queue and `publish` re-raises. -/
inductive PublishResult where
  | ok
  | queueFull
deriving DecidableEq

/-- `AgentMessageBus.publish`: non-blocking `put_nowait`, then metrics; a
full queue raises QueueFull before any state change.  The wall-clock publish
duration measured by `perf_counter` is an input here. -/
def AgentMessageBus.publish (b : AgentMessageBus) (m : AgentMessage)
    (duration : ℚ) : AgentMessageBus × PublishResult :=
  if b.message_queue.length < b.max_queue_size then
    ({ b with
        message_queue := b.message_queue ++ [m]
        stats := b.stats.record_publish m duration }, PublishResult.ok)
  else
    (b, PublishResult.queueFull)

/-- PriorityQueue retrieval: an entry with minimal priority ordinal (the
earliest-queued one among ties), together with the remaining queue. -/
def popMin : List AgentMessage → Option (AgentMessage × List AgentMessage)
  | [] => none
  | m :: ms =>
    match popMin ms with
    | none => some (m, [])
    | some (m2, rest) =>
      if m.priority.ordinal ≤ m2.priority.ordinal then some (m, ms)
      else some (m2, m :: rest)

/-- Draining the priority queue: the order in which `message_queue.get()`
hands queued messages to the dispatch loop.  The fuel argument is the queue
length; each pop removes exactly one message. -/
def drainAux : ℕ → List AgentMessage → List AgentMessage
  | 0, _ => []
  | Nat.succ k, q =>
    match popMin q with
    | none => []
    | some (m, rest) => m :: drainAux k rest

def drain (q : List AgentMessage) : List AgentMessage :=
  drainAux q.length q

deriving instance DecidableEq for Except

/-- One delivered handler invocation, as observed by a subscriber. -/
structure Delivery where
  sid : ℕ
  message : AgentMessage
  result : Except String Unit
deriving DecidableEq

/-- `asyncio.gather`: with `return_exceptions=True` every task runs and
exceptions are returned, not raised; without it the first exception
propagates. -/
def gatherResults (return_exceptions : Bool) (rs : List (Except String Unit)) :
    Except String (List (Except String Unit)) :=
  if return_exceptions then Except.ok rs
  else
    match rs.filterMap (fun r => match r with
      | Except.error e => some e
      | Except.ok _ => none) with
    | [] => Except.ok rs
    | e :: _ => Except.error e

/-- `AgentMessageBus._deliver_message`: every subscriber of the type runs
(both the broadcast and the direct branch invoke all of them), gathered with
`return_exceptions=True`. -/
def AgentMessageBus.deliver_message (subs : String → List Subscriber)
    (m : AgentMessage) : Except String (List Delivery) :=
  let handlers := subs m.message_type
  let ds := handlers.map fun s => Delivery.mk s.sid m (s.run m)
  match gatherResults true (ds.map Delivery.result) with
  | Except.ok _ => Except.ok ds
  | Except.error e => Except.error e

/-- `AgentMessageBus.process_messages` on the queued backlog: dequeue in
priority order and deliver; an escaping exception would abort the loop
(`except Exception: raise`), which the Except threading mirrors. -/
def processDrained (subs : String → List Subscriber) :
    List AgentMessage → Except String (List Delivery)
  | [] => Except.ok []
  | m :: ms =>
    match AgentMessageBus.deliver_message subs m with
    | Except.error e => Except.error e
    | Except.ok ds =>
      match processDrained subs ms with
      | Except.error e => Except.error e
      | Except.ok rest => Except.ok (ds ++ rest)

def AgentMessageBus.process_backlog (b : AgentMessageBus) :
    Except String (List Delivery) :=
  processDrained b.subscribers (drain b.message_queue)

/-! ### Priority-queue retrieval order (for claims C4, C5, C8) -/

lemma popMin_none {q : List AgentMessage} (h : popMin q = none) : q = [] := by
  cases q with
  | nil => rfl
  | cons m ms =>
    exfalso
    rw [popMin] at h
    cases hh : popMin ms with
    | none => rw [hh] at h; simp at h
    | some p =>
      rcases p with ⟨m2, rest⟩
      rw [hh] at h
      dsimp at h
      split at h <;> simp at h

lemma popMin_spec : ∀ (q : List AgentMessage) (m : AgentMessage)
    (rest : List AgentMessage), popMin q = some (m, rest) →
    q.Perm (m :: rest) ∧ ∀ x ∈ q, m.priority.ordinal ≤ x.priority.ordinal := by
  intro q
  induction q with
  | nil => intro m rest h; simp [popMin] at h
  | cons a as ih =>
    intro m rest h
    rw [popMin] at h
    cases hh : popMin as with
    | none =>
      have has : as = [] := popMin_none hh
      rw [hh] at h
      simp at h
      obtain ⟨rfl, rfl⟩ := h
      subst has
      refine ⟨List.Perm.refl _, ?_⟩
      intro x hx
      simp at hx
      subst hx
      exact le_rfl
    | some p =>
      rcases p with ⟨m2, rest2⟩
      obtain ⟨ihp, ihmin⟩ := ih m2 rest2 hh
      rw [hh] at h
      dsimp at h
      split at h
      next hle =>
        simp at h
        obtain ⟨rfl, rfl⟩ := h
        refine ⟨List.Perm.refl _, ?_⟩
        intro x hx
        rcases List.mem_cons.mp hx with rfl | hx'
        · exact le_rfl
        · exact le_trans hle (ihmin x hx')
      next hgt =>
        simp at h
        obtain ⟨rfl, rfl⟩ := h
        refine ⟨?_, ?_⟩
        · exact List.Perm.trans (List.Perm.cons a ihp) (List.Perm.swap _ a rest2)
        · intro x hx
          rcases List.mem_cons.mp hx with rfl | hx'
          · omega
          · exact ihmin x hx'

lemma popMin_length {q : List AgentMessage} {m : AgentMessage}
    {rest : List AgentMessage} (h : popMin q = some (m, rest)) :
    rest.length + 1 = q.length := by
  have hp := (popMin_spec q m rest h).1
  have := hp.length_eq
  simpa using this.symm

lemma drainAux_spec : ∀ (k : ℕ) (q : List AgentMessage), q.length ≤ k →
    (drainAux k q).Perm q ∧
    List.Sorted (fun a b : AgentMessage =>
      a.priority.ordinal ≤ b.priority.ordinal) (drainAux k q) := by
  intro k
  induction k with
  | zero =>
    intro q hq
    have hnil : q = [] := List.length_eq_zero.mp (by omega)
    subst hnil
    exact ⟨by simp [drainAux], by simp [drainAux]⟩
  | succ k ih =>
    intro q hq
    cases hh : popMin q with
    | none =>
      have hnil : q = [] := popMin_none hh
      subst hnil
      simp only [drainAux, hh]
      exact ⟨List.Perm.refl _, by simp⟩
    | some p =>
      rcases p with ⟨m, rest⟩
      have hlen := popMin_length hh
      obtain ⟨hperm, hsorted⟩ := ih rest (by omega)
      obtain ⟨hqperm, hmin⟩ := popMin_spec q m rest hh
      simp only [drainAux, hh]
      refine ⟨List.Perm.trans (List.Perm.cons m hperm) hqperm.symm, ?_⟩
      rw [List.sorted_cons]
      refine ⟨?_, hsorted⟩
      intro b hb
      exact hmin b (hqperm.mem_iff.mpr (List.mem_cons_of_mem m (hperm.subset hb)))

lemma drain_perm (q : List AgentMessage) : (drain q).Perm q :=
  (drainAux_spec q.length q le_rfl).1

lemma drain_sorted (q : List AgentMessage) :
    List.Sorted (fun a b : AgentMessage =>
      a.priority.ordinal ≤ b.priority.ordinal) (drain q) :=
  (drainAux_spec q.length q le_rfl).2

/-- A test message of a given priority, type and id. -/
def mkMsg (p : MessagePriority) (ty id : String) : AgentMessage :=
  ⟨p, 0, "tester", "broadcast", ty, [], id⟩

/-- `AgentMessageBus.subscribe`: append the handler entry to the type's
subscriber list (`defaultdict(list)` append). -/
def AgentMessageBus.subscribe (b : AgentMessageBus) (message_type : String)
    (s : Subscriber) : AgentMessageBus :=
  { b with subscribers := fun t =>
      if t = message_type then b.subscribers t ++ [s] else b.subscribers t }

/-- The concrete C4 scenario: one subscriber, four messages published in
the order LOW, CRITICAL, HIGH, NORMAL before any dispatch runs. -/
def c4Bus : AgentMessageBus :=
  let b0 := (AgentMessageBus.init 10000).subscribe "position_update"
    ⟨1, MessagePriority.LOW, fun _ => Except.ok ()⟩
  let b1 := (b0.publish (mkMsg MessagePriority.LOW "position_update" "m1") 0).1
  let b2 := (b1.publish (mkMsg MessagePriority.CRITICAL "position_update" "m2") 0).1
  let b3 := (b2.publish (mkMsg MessagePriority.HIGH "position_update" "m3") 0).1
  (b3.publish (mkMsg MessagePriority.NORMAL "position_update" "m4") 0).1

/-- Claim C4: four messages of one type with priorities [LOW, CRITICAL,
HIGH, NORMAL] all published before dispatch are received by a single
subscriber in the order [CRITICAL, HIGH, NORMAL, LOW]; in general, messages
enqueued before dispatch are delivered in ascending priority-ordinal order
regardless of publish order. -/
theorem C4_priority_dispatch_order :
    c4Bus.process_backlog
      = Except.ok
          [⟨1, mkMsg MessagePriority.CRITICAL "position_update" "m2", Except.ok ()⟩,
           ⟨1, mkMsg MessagePriority.HIGH "position_update" "m3", Except.ok ()⟩,
           ⟨1, mkMsg MessagePriority.NORMAL "position_update" "m4", Except.ok ()⟩,
           ⟨1, mkMsg MessagePriority.LOW "position_update" "m1", Except.ok ()⟩]
    ∧ ∀ q : List AgentMessage,
        ((drain q).map fun m => m.priority.ordinal).Sorted (· ≤ ·)
        ∧ (drain q).Perm q := by
  constructor
  · decide
  · intro q
    exact ⟨List.Pairwise.map _ (fun a b h => h) (drain_sorted q), drain_perm q⟩

/-- Claim C5: publish on a full bus queue fails with QueueFull, without any
change to the queue contents or the publish statistics; on a non-full queue
it enqueues the message and records the publish metrics. -/
theorem C5_publish_full_queue (b : AgentMessageBus) (m : AgentMessage)
    (duration : ℚ) :
    (b.max_queue_size ≤ b.message_queue.length →
      b.publish m duration = (b, PublishResult.queueFull))
    ∧ (b.message_queue.length < b.max_queue_size →
      b.publish m duration
        = ({ b with
              message_queue := b.message_queue ++ [m]
              stats := b.stats.record_publish m duration }, PublishResult.ok)
      ∧ (b.publish m duration).1.stats.messages_published
          = b.stats.messages_published + 1) := by
  constructor
  · intro h
    rw [AgentMessageBus.publish, if_neg (by omega)]
  · intro h
    have he : b.publish m duration
        = ({ b with
              message_queue := b.message_queue ++ [m]
              stats := b.stats.record_publish m duration }, PublishResult.ok) := by
      rw [AgentMessageBus.publish, if_pos h]
    exact ⟨he, by rw [he]; rfl⟩

/-- A bus whose queue is already at max_queue_size. -/
def c5FullBus : AgentMessageBus :=
  ⟨1, [mkMsg MessagePriority.LOW "position_update" "f1"], fun _ => [],
    MessageStats.init⟩

/-- Witness for C5: a full single-slot bus rejects a publish unchanged;
a fresh bus accepts one. -/
theorem C5_publish_full_queue_witness :
    (c5FullBus.max_queue_size ≤ c5FullBus.message_queue.length
      ∧ c5FullBus.publish (mkMsg MessagePriority.HIGH "position_update" "f2") 0
          = (c5FullBus, PublishResult.queueFull))
    ∧ ((AgentMessageBus.init 8).message_queue.length
          < (AgentMessageBus.init 8).max_queue_size
      ∧ ((AgentMessageBus.init 8).publish
            (mkMsg MessagePriority.HIGH "position_update" "f2") 0).1.stats.messages_published
          = (AgentMessageBus.init 8).stats.messages_published + 1) :=
  ⟨⟨by decide,
      (C5_publish_full_queue c5FullBus (mkMsg MessagePriority.HIGH "position_update" "f2") 0).1
        (by decide)⟩,
   ⟨by decide,
      ((C5_publish_full_queue (AgentMessageBus.init 8)
          (mkMsg MessagePriority.HIGH "position_update" "f2") 0).2 (by decide)).2⟩⟩

/-- The C8 scenario: two subscribers to one type, the first one raising. -/
def c8Subs : String → List Subscriber := fun t =>
  if t = "beat_event" then
    [⟨1, MessagePriority.LOW, fun _ => Except.error "handler crashed"⟩,
     ⟨2, MessagePriority.LOW, fun _ => Except.ok ()⟩]
  else []

/-- Claim C8: a raising handler is isolated: processing never aborts, every
message reaches every subscriber of its type even when some handler raises,
and later queued messages are still processed; demonstrated concretely with
a raising first handler. -/
theorem C8_handler_isolation :
    (∀ (subs : String → List Subscriber) (q : List AgentMessage),
      processDrained subs (drain q)
        = Except.ok ((drain q).flatMap fun m =>
            (subs m.message_type).map fun s => Delivery.mk s.sid m (s.run m)))
    ∧ processDrained c8Subs
        [mkMsg MessagePriority.NORMAL "beat_event" "b1",
         mkMsg MessagePriority.LOW "beat_event" "b2"]
      = Except.ok
          [⟨1, mkMsg MessagePriority.NORMAL "beat_event" "b1",
              Except.error "handler crashed"⟩,
           ⟨2, mkMsg MessagePriority.NORMAL "beat_event" "b1", Except.ok ()⟩,
           ⟨1, mkMsg MessagePriority.LOW "beat_event" "b2",
              Except.error "handler crashed"⟩,
           ⟨2, mkMsg MessagePriority.LOW "beat_event" "b2", Except.ok ()⟩] := by
  constructor
  · intro subs q
    generalize drain q = l
    induction l with
    | nil => rfl
    | cons m ms ih =>
      simp [processDrained, AgentMessageBus.deliver_message, gatherResults, ih]
  · decide

/-! ## RealtimeAnalyzer.track_beat (analyzer.py lines 254-299)

`track_beat` uses only the `beat_times` deque (maxlen 8) and the
`tempo_estimate` float; the DSP buffers and librosa calls of the other
methods are irrelevant to it.  Floats are modelled as rationals. -/

/-- Appending to a `deque(maxlen := n)`: the oldest entries fall off the
front once the length exceeds the bound. -/
def dequePush {α : Type} (maxlen : ℕ) (l : List α) (x : α) : List α :=
  let l2 := l ++ [x]
  if maxlen < l2.length then l2.drop (l2.length - maxlen) else l2

/-- `np.median`: the middle element of the sorted data for odd length, the
mean of the two middle elements for even length.  (On empty input numpy
yields nan; the code only calls this on nonempty data and the model returns
0 there.) -/
def npMedian (l : List ℚ) : ℚ :=
  let s := List.insertionSort (fun a b : ℚ => a ≤ b) l
  if l.length % 2 = 1 then s.getD (l.length / 2) 0
  else (s.getD (l.length / 2 - 1) 0 + s.getD (l.length / 2) 0) / 2

/-- The consecutive inter-beat intervals of the stored beat times
(`beat_times[i+1] - beat_times[i]`). -/
def beatIntervals (l : List ℚ) : List ℚ :=
  (l.zip l.tail).map fun p => p.2 - p.1

/-- The `track_beat`-relevant analyzer state. -/
structure RealtimeAnalyzer where
  beat_times : List ℚ
  tempo_estimate : ℚ

/-- `RealtimeAnalyzer.__init__`: no beats yet, 120 BPM prior. -/
def RealtimeAnalyzer.mk0 : RealtimeAnalyzer := ⟨[], 120⟩

/-- `RealtimeAnalyzer.track_beat`: returns the updated state and whether a
beat was accepted. -/
def RealtimeAnalyzer.track_beat (a : RealtimeAnalyzer) (onset_detected : Bool)
    (current_time : ℚ) : RealtimeAnalyzer × Bool :=
  if ¬ onset_detected then (a, false)
  else
    let beat_interval := 60 / a.tempo_estimate
    if a.beat_times = [] then
      ({ a with beat_times := dequePush 8 a.beat_times current_time }, true)
    else
      let time_since_last_beat := current_time - a.beat_times.getLastD 0
      if beat_interval * (7 / 10) ≤ time_since_last_beat then
        let bt := dequePush 8 a.beat_times current_time
        let a2 : RealtimeAnalyzer :=
          if 4 ≤ bt.length then
            let recent_intervals := beatIntervals bt
            let median_interval := npMedian recent_intervals
            if 0 < median_interval then
              { beat_times := bt,
                tempo_estimate := (7 / 10) * a.tempo_estimate
                  + (3 / 10) * (60 / median_interval) }
            else { a with beat_times := bt }
          else { a with beat_times := bt }
        (a2, true)
      else (a, false)

/-- Running a sequence of (onset, time) calls through track_beat. -/
def trackBeatRun (a : RealtimeAnalyzer) (calls : List (Bool × ℚ)) :
    RealtimeAnalyzer :=
  calls.foldl (fun st c => (st.track_beat c.1 c.2).1) a

example :
    (trackBeatRun RealtimeAnalyzer.mk0
      [(true, 0), (true, 1), (true, 2), (true, 3)]).tempo_estimate = 102 := by
  simp only [trackBeatRun, RealtimeAnalyzer.track_beat, RealtimeAnalyzer.mk0,
    dequePush, beatIntervals, npMedian, List.insertionSort, List.orderedInsert,
    List.foldl]
  norm_num [List.getLastD]
  simp

example :
    (trackBeatRun RealtimeAnalyzer.mk0
      [(true, 0), (true, 1), (true, 2), (true, 3), (true, 4)]).tempo_estimate
      = 447 / 5 := by
  simp only [trackBeatRun, RealtimeAnalyzer.track_beat, RealtimeAnalyzer.mk0,
    dequePush, beatIntervals, npMedian, List.insertionSort, List.orderedInsert,
    List.foldl]
  norm_num [List.getLastD]
  simp
  norm_num

/-- The analyzer after four accepted beats at t = 0, 1, 2, 3. -/
def c7S4 : RealtimeAnalyzer :=
  trackBeatRun RealtimeAnalyzer.mk0 [(true, 0), (true, 1), (true, 2), (true, 3)]

lemma c7S4_eval : c7S4 = ⟨[0, 1, 2, 3], 102⟩ := by
  simp only [c7S4, trackBeatRun, RealtimeAnalyzer.track_beat,
    RealtimeAnalyzer.mk0, dequePush, beatIntervals, npMedian,
    List.insertionSort, List.orderedInsert, List.foldl]
  norm_num [List.getLastD]
  simp

lemma c7_step5_eval :
    (RealtimeAnalyzer.mk [0, 1, 2, 3] 102).track_beat true 4
      = (RealtimeAnalyzer.mk [0, 1, 2, 3, 4] (447 / 5), true) := by
  simp only [RealtimeAnalyzer.track_beat, dequePush, beatIntervals, npMedian,
    List.insertionSort, List.orderedInsert]
  norm_num [List.getLastD]
  simp

/-- Claim C7 counterexample: after four accepted beats (tempo recomputed to
102 at the fourth), a fifth accepted beat — a count that is not a multiple
of 4 — changes the tempo estimate again, so the tempo is not recomputed
"every 4 accepted beats" but on every accepted beat from the fourth on. -/
theorem C7_track_beat_counterexample :
    c7S4.beat_times = [0, 1, 2, 3]
    ∧ c7S4.tempo_estimate = 102
    ∧ (c7S4.track_beat true 4).2 = true
    ∧ (c7S4.track_beat true 4).1.tempo_estimate ≠ 102 := by
  rw [c7S4_eval]
  refine ⟨rfl, rfl, ?_, ?_⟩
  · rw [show (⟨[0, 1, 2, 3], 102⟩ : RealtimeAnalyzer)
        = RealtimeAnalyzer.mk [0, 1, 2, 3] 102 from rfl, c7_step5_eval]
  · rw [show (⟨[0, 1, 2, 3], 102⟩ : RealtimeAnalyzer)
        = RealtimeAnalyzer.mk [0, 1, 2, 3] 102 from rfl, c7_step5_eval]
    norm_num

/-- Claim C7 (amended): with at least one stored beat, track_beat(true, t)
accepts iff at least 70 percent of the current estimated beat interval
(60/tempo_estimate) has elapsed since the last accepted beat; on acceptance
the beat is stored (deque of 8) and, on every accepted beat at which at
least 4 beat times are stored and the median inter-beat interval is
positive — not only every fourth — the tempo becomes 0.7 x prior +
0.3 x (60 / median of the stored inter-beat intervals); otherwise the tempo
is unchanged; a rejected or onset-free tick changes nothing. -/
theorem C7_track_beat_spec (a : RealtimeAnalyzer) (t : ℚ)
    (hne : a.beat_times ≠ []) :
    ((a.track_beat true t).2 = true ↔
      (60 / a.tempo_estimate) * (7 / 10) ≤ t - a.beat_times.getLastD 0)
    ∧ ((60 / a.tempo_estimate) * (7 / 10) ≤ t - a.beat_times.getLastD 0 →
        (a.track_beat true t).1.beat_times = dequePush 8 a.beat_times t
        ∧ (a.track_beat true t).1.tempo_estimate =
          (if 4 ≤ (dequePush 8 a.beat_times t).length
              ∧ 0 < npMedian (beatIntervals (dequePush 8 a.beat_times t))
            then (7 / 10) * a.tempo_estimate
              + (3 / 10) * (60 / npMedian (beatIntervals (dequePush 8 a.beat_times t)))
            else a.tempo_estimate))
    ∧ (¬ ((60 / a.tempo_estimate) * (7 / 10) ≤ t - a.beat_times.getLastD 0) →
        a.track_beat true t = (a, false))
    ∧ a.track_beat false t = (a, false) := by
  have hfalse : a.track_beat false t = (a, false) := by
    rw [RealtimeAnalyzer.track_beat]
    simp
  by_cases hcond : (60 / a.tempo_estimate) * (7 / 10) ≤ t - a.beat_times.getLastD 0
  · have he : a.track_beat true t
        = ((if 4 ≤ (dequePush 8 a.beat_times t).length then
              (if 0 < npMedian (beatIntervals (dequePush 8 a.beat_times t)) then
                ({ beat_times := dequePush 8 a.beat_times t,
                   tempo_estimate := (7 / 10) * a.tempo_estimate
                     + (3 / 10) * (60 / npMedian
                        (beatIntervals (dequePush 8 a.beat_times t))) } :
                  RealtimeAnalyzer)
              else { a with beat_times := dequePush 8 a.beat_times t })
            else { a with beat_times := dequePush 8 a.beat_times t }), true) := by
      simp only [RealtimeAnalyzer.track_beat]
      rw [if_neg (by simp), if_neg hne, if_pos hcond]
    refine ⟨by rw [he]; simpa using hcond, fun _ => ⟨?_, ?_⟩,
      fun hc => absurd hcond hc, hfalse⟩
    · rw [he]
      by_cases h4 : 4 ≤ (dequePush 8 a.beat_times t).length <;>
        by_cases hmed : 0 < npMedian (beatIntervals (dequePush 8 a.beat_times t)) <;>
        simp [h4, hmed]
    · rw [he]
      by_cases h4 : 4 ≤ (dequePush 8 a.beat_times t).length <;>
        by_cases hmed : 0 < npMedian (beatIntervals (dequePush 8 a.beat_times t)) <;>
        simp [h4, hmed]
  · have he : a.track_beat true t = (a, false) := by
      simp only [RealtimeAnalyzer.track_beat]
      rw [if_neg (by simp), if_neg hne, if_neg hcond]
    exact ⟨by rw [he]; simpa using hcond, fun hc => absurd hc hcond, fun _ => he,
      hfalse⟩

/-- A small concrete analyzer state used to instantiate C7. -/
def c7A : RealtimeAnalyzer := ⟨[0], 120⟩

/-- Witness for the amended C7 at the concrete state with one stored beat. -/
theorem C7_track_beat_spec_witness :
    c7A.beat_times ≠ []
    ∧ (((c7A.track_beat true 1).2 = true ↔
        (60 / c7A.tempo_estimate) * (7 / 10) ≤ 1 - c7A.beat_times.getLastD 0)
      ∧ ((60 / c7A.tempo_estimate) * (7 / 10) ≤ 1 - c7A.beat_times.getLastD 0 →
          (c7A.track_beat true 1).1.beat_times = dequePush 8 c7A.beat_times 1
          ∧ (c7A.track_beat true 1).1.tempo_estimate =
            (if 4 ≤ (dequePush 8 c7A.beat_times 1).length
                ∧ 0 < npMedian (beatIntervals (dequePush 8 c7A.beat_times 1))
              then (7 / 10) * c7A.tempo_estimate
                + (3 / 10) * (60 / npMedian
                    (beatIntervals (dequePush 8 c7A.beat_times 1)))
              else c7A.tempo_estimate))
      ∧ (¬ ((60 / c7A.tempo_estimate) * (7 / 10) ≤ 1 - c7A.beat_times.getLastD 0) →
          c7A.track_beat true 1 = (c7A, false))
      ∧ c7A.track_beat false 1 = (c7A, false)) :=
  ⟨by decide, C7_track_beat_spec c7A 1 (by decide)⟩

/-! ## SongMapPositionTracker (position_tracker.py)

Song-Map times come from the JSON document and stay rational; the tracker's
own arithmetic applies `np.exp` during confidence decay, so the mutable
position state lives in the reals (real-indexed comparisons make these
definitions noncomputable, mirroring float comparisons).  The `sections`
list built by `_parse_sections` is consulted only by `get_current_*` and
`get_stats`, none of which the claims touch, so it is not carried here. -/

/-- A syllable of the Song Map document (`.get` defaults of 0.0 for missing
times are folded into the fields). -/
structure Syllable where
  text : String
  startTime : ℚ
  duration : ℚ
  chord : Option String

structure SongLine where
  syllables : List Syllable

structure SongSection where
  name : String
  lines : List SongLine

structure SongMap where
  sections : List SongSection

/-- `SongMapOnset`. -/
structure SongMapOnset where
  time : ℚ
  section_index : ℕ
  line_index : ℕ
  syllable_index : ℕ
  pitch : Option ℚ
  chord : Option String
  confidence : ℚ
deriving DecidableEq

def onsetDflt : SongMapOnset := ⟨0, 0, 0, 0, none, none, 1⟩

/-- `_parse_onsets`: one onset per syllable start with its section, line and
syllable indices, then sorted ascending by time (Python's stable list sort,
modelled by insertion sort). -/
def parseOnsets (sm : SongMap) : List SongMapOnset :=
  let raw := sm.sections.enum.flatMap fun sec =>
    sec.2.lines.enum.flatMap fun line =>
      line.2.syllables.enum.map fun syl =>
        SongMapOnset.mk syl.2.startTime sec.1 line.1 syl.1 none syl.2.chord 1
  List.insertionSort (fun a b => a.time ≤ b.time) raw

/-- `PerformerPosition`. -/
structure PerformerPosition where
  song_time : ℝ
  section_index : ℕ
  line_index : ℕ
  syllable_index : ℕ
  confidence : ℝ
  tempo_ratio : ℝ
  last_onset_time : Option ℝ

/-- The tracker state. -/
structure SongMapPositionTracker where
  onset_match_window : ℝ
  min_onset_confidence : ℝ
  tempo_smoothing : ℝ
  onsets : List SongMapOnset
  onset_times : List ℚ
  position : PerformerPosition
  recent_onsets : List ℝ
  performance_start_time : Option ℝ
  last_update_time : Option ℝ
  tempo_estimates : List ℝ
  expected_next_onset_idx : Option ℕ

/-- `SongMapPositionTracker.__init__` with the default configuration
(onset_match_window 0.15, min_onset_confidence 0.6, tempo_smoothing 0.3). -/
def mkTracker (song_map : SongMap) : SongMapPositionTracker :=
  { onset_match_window := 0.15
    min_onset_confidence := 0.6
    tempo_smoothing := 0.3
    onsets := parseOnsets song_map
    onset_times := (parseOnsets song_map).map SongMapOnset.time
    position := ⟨0, 0, 0, 0, 0, 1, none⟩
    recent_onsets := []
    performance_start_time := none
    last_update_time := none
    tempo_estimates := []
    expected_next_onset_idx := none }

/-- `start()`: reset the position, clear the rolling state, record the wall
clock (`time.time()`, passed as `now`) as the start reference. -/
def SongMapPositionTracker.start (tr : SongMapPositionTracker) (now : ℝ) :
    SongMapPositionTracker :=
  { tr with
    performance_start_time := some now
    last_update_time := some now
    position := ⟨0, 0, 0, 0, 0, 1, none⟩
    recent_onsets := []
    tempo_estimates := []
    expected_next_onset_idx := some 0 }

/-- `bisect.bisect_left` on a sorted rational list with a real key. -/
noncomputable def bisectLeft (l : List ℚ) (x : ℝ) : ℕ :=
  match l with
  | [] => 0
  | q :: qs => if (q : ℝ) < x then bisectLeft qs x + 1 else 0

/-- `np.median` over reals (same computation as `npMedian`). -/
noncomputable def npMedianR (l : List ℝ) : ℝ :=
  let s := List.insertionSort (fun a b : ℝ => a ≤ b) l
  if l.length % 2 = 1 then s.getD (l.length / 2) 0
  else (s.getD (l.length / 2 - 1) 0 + s.getD (l.length / 2) 0) / 2

/-- The body of the plus-minus-10 candidate loop of `_find_matching_onset`
(one iteration, with the strict `confidence > best_confidence` update).
Inside the guard `idx` is nonnegative, so the Python comparison
`idx == self.expected_next_onset_idx` (false for None) is
`expected_next_onset_idx = some idx.toNat`. -/
noncomputable def findStep (tr : SongMapPositionTracker)
    (expected_song_time : ℝ) (search_center_idx : ℤ)
    (best : Option ℕ × ℝ) (k : ℕ) : Option ℕ × ℝ :=
  let idx : ℤ := search_center_idx + (k : ℤ) - 10
  if idx < 0 ∨ (tr.onsets.length : ℤ) ≤ idx then best
  else
    let onset := tr.onsets.getD idx.toNat onsetDflt
    let song_time_diff := |((onset.time : ℝ)) - expected_song_time|
    if song_time_diff ≤ tr.onset_match_window then
      let conf := 1 - song_time_diff / tr.onset_match_window
      let conf :=
        if tr.expected_next_onset_idx = some idx.toNat then
          min 1 (conf * 1.5)
        else conf
      if best.2 < conf then (some idx.toNat, conf) else best
    else best

noncomputable def SongMapPositionTracker.find_matching_onset
    (tr : SongMapPositionTracker) (performance_time : ℝ) : Option ℕ × ℝ :=
  if tr.onsets = [] then (none, 0)
  else
    let expected_song_time : ℝ :=
      match tr.position.last_onset_time with
      | some lt =>
        tr.position.song_time + (performance_time - lt) * tr.position.tempo_ratio
      | none => performance_time
    let search_center_idx : ℤ := bisectLeft tr.onset_times expected_song_time
    (List.range 21).foldl (findStep tr expected_song_time search_center_idx)
      (none, 0)

/-- `_update_tempo_estimate` (called by `_handle_onset` after it has already
overwritten `position.last_onset_time` with the current detection time). -/
noncomputable def SongMapPositionTracker.update_tempo_estimate
    (tr : SongMapPositionTracker) (onset_idx : ℕ) (performance_time : ℝ) :
    SongMapPositionTracker :=
  match tr.position.last_onset_time with
  | none => tr
  | some lt =>
    let performance_interval := performance_time - lt
    if 0 < onset_idx then
      let map_interval : ℝ := ((tr.onsets.getD onset_idx onsetDflt).time : ℝ)
        - ((tr.onsets.getD (onset_idx - 1) onsetDflt).time : ℝ)
      if 0 < map_interval ∧ 0 < performance_interval then
        let tempo_ratio := min 2 (max 0.5 (map_interval / performance_interval))
        let tr2 := { tr with
          tempo_estimates := dequePush 4 tr.tempo_estimates tempo_ratio }
        if tr2.tempo_estimates ≠ [] then
          { tr2 with position := { tr2.position with
              tempo_ratio := tr2.tempo_smoothing * npMedianR tr2.tempo_estimates
                + (1 - tr2.tempo_smoothing) * tr2.position.tempo_ratio } }
        else tr2
      else tr
    else tr

/-- `_handle_onset`. -/
noncomputable def SongMapPositionTracker.handle_onset
    (tr0 : SongMapPositionTracker) (performance_time : ℝ) :
    SongMapPositionTracker :=
  let tr := { tr0 with
    recent_onsets := dequePush 8 tr0.recent_onsets performance_time }
  let mc := tr.find_matching_onset performance_time
  match mc.1 with
  | some match_idx =>
    if tr.min_onset_confidence ≤ mc.2 then
      let matched_onset := tr.onsets.getD match_idx onsetDflt
      let tr2 := { tr with position := { tr.position with
          song_time := (matched_onset.time : ℝ)
          section_index := matched_onset.section_index
          line_index := matched_onset.line_index
          syllable_index := matched_onset.syllable_index
          confidence := mc.2
          last_onset_time := some performance_time } }
      let tr3 := tr2.update_tempo_estimate match_idx performance_time
      { tr3 with expected_next_onset_idx := some (match_idx + 1) }
    else tr
  | none => tr

/-- `_update_position_from_song_time`. -/
noncomputable def SongMapPositionTracker.update_position_from_song_time
    (tr : SongMapPositionTracker) : SongMapPositionTracker :=
  let idx := bisectLeft tr.onset_times tr.position.song_time
  if 0 < idx ∧ idx ≤ tr.onsets.length then
    let onset := tr.onsets.getD (idx - 1) onsetDflt
    { tr with position := { tr.position with
        section_index := onset.section_index
        line_index := onset.line_index
        syllable_index := onset.syllable_index } }
  else tr

/-- `_extrapolate_position`: advance by elapsed-since-last-onset times the
tempo ratio, decay confidence by `np.exp(-time_since_last * 0.693)`. -/
noncomputable def SongMapPositionTracker.extrapolate_position
    (tr : SongMapPositionTracker) (performance_time : ℝ) :
    SongMapPositionTracker :=
  match tr.position.last_onset_time with
  | none => { tr with position := { tr.position with confidence := 0 } }
  | some lt =>
    let time_since_last := performance_time - lt
    let tr2 := { tr with position := { tr.position with
        song_time := tr.position.song_time
          + time_since_last * tr.position.tempo_ratio
        confidence := tr.position.confidence
          * Real.exp (-(time_since_last * 0.693)) } }
    tr2.update_position_from_song_time

/-- `update(onset_detected, current_time)`: `now` stands for the wall clock
`time.time()` used when `current_time` is omitted and for the auto-start. -/
noncomputable def SongMapPositionTracker.update (tr0 : SongMapPositionTracker)
    (onset_detected : Bool) (current_time : Option ℝ) (now : ℝ) :
    SongMapPositionTracker :=
  let ct := current_time.getD now
  let tr :=
    match tr0.performance_start_time with
    | none => tr0.start now
    | some _ => tr0
  let performance_elapsed := ct - tr.performance_start_time.getD 0
  let tr2 :=
    if onset_detected then tr.handle_onset performance_elapsed
    else tr.extrapolate_position performance_elapsed
  { tr2 with last_update_time := some ct }

/-- A whole session: `start()` has been called; then one `update` per call,
each with an explicit timestamp. -/
noncomputable def runCalls (tr : SongMapPositionTracker)
    (calls : List (Bool × ℝ)) : SongMapPositionTracker :=
  calls.foldl (fun t c => t.update c.1 (some c.2) 0) tr

/-! ### Position-tracker invariants (for claims C1, C2, C6, C9) -/

lemma findStep_bounds (tr : SongMapPositionTracker) (est : ℝ) (c : ℤ)
    (best : Option ℕ × ℝ) (k : ℕ) (h0 : 0 ≤ best.2) (h1 : best.2 ≤ 1) :
    0 ≤ (findStep tr est c best k).2 ∧ (findStep tr est c best k).2 ≤ 1 := by
  simp only [findStep]
  set d := |((tr.onsets.getD (c + (k : ℤ) - 10).toNat onsetDflt).time : ℝ) - est| with hd
  by_cases hguard : (c + (k : ℤ) - 10 < 0 ∨ (tr.onsets.length : ℤ) ≤ c + (k : ℤ) - 10)
  · rw [if_pos hguard]
    exact ⟨h0, h1⟩
  · rw [if_neg hguard]
    by_cases hdiff : d ≤ tr.onset_match_window
    · rw [if_pos hdiff]
      have habs : (0 : ℝ) ≤ d := by rw [hd]; exact abs_nonneg _
      have hw : (0 : ℝ) ≤ tr.onset_match_window := le_trans habs hdiff
      have hbase0 : (0 : ℝ) ≤ 1 - d / tr.onset_match_window := by
        rcases eq_or_lt_of_le hw with hw0 | hwpos
        · rw [← hw0, div_zero]
          norm_num
        · have := (div_le_one hwpos).mpr hdiff
          linarith
      have hbase1 : 1 - d / tr.onset_match_window ≤ 1 := by
        have := div_nonneg habs hw
        linarith
      by_cases hexp : tr.expected_next_onset_idx = some (c + (k : ℤ) - 10).toNat
      · rw [if_pos hexp]
        by_cases hlt : best.2 < min 1 ((1 - d / tr.onset_match_window) * 1.5)
        · rw [if_pos hlt]
          refine ⟨le_min (by norm_num) ?_, min_le_left _ _⟩
          exact mul_nonneg hbase0 (by norm_num)
        · rw [if_neg hlt]
          exact ⟨h0, h1⟩
      · rw [if_neg hexp]
        by_cases hlt : best.2 < 1 - d / tr.onset_match_window
        · rw [if_pos hlt]
          exact ⟨hbase0, hbase1⟩
        · rw [if_neg hlt]
          exact ⟨h0, h1⟩
    · rw [if_neg hdiff]
      exact ⟨h0, h1⟩

lemma findFold_bounds (tr : SongMapPositionTracker) (est : ℝ) (c : ℤ) :
    ∀ (l : List ℕ) (best : Option ℕ × ℝ), 0 ≤ best.2 → best.2 ≤ 1 →
    0 ≤ (l.foldl (findStep tr est c) best).2
      ∧ (l.foldl (findStep tr est c) best).2 ≤ 1 := by
  intro l
  induction l with
  | nil => intro best h0 h1; exact ⟨h0, h1⟩
  | cons k ks ih =>
    intro best h0 h1
    have hb := findStep_bounds tr est c best k h0 h1
    exact ih (findStep tr est c best k) hb.1 hb.2

lemma find_matching_onset_bounds (tr : SongMapPositionTracker) (pt : ℝ) :
    0 ≤ (tr.find_matching_onset pt).2 ∧ (tr.find_matching_onset pt).2 ≤ 1 := by
  rw [SongMapPositionTracker.find_matching_onset]
  split
  · simp
  · exact findFold_bounds tr _ _ (List.range 21) (none, 0) le_rfl (by norm_num)

lemma dequePush_mem {α : Type} {n : ℕ} {l : List α} {v x : α}
    (h : x ∈ dequePush n l v) : x ∈ l ∨ x = v := by
  rw [dequePush] at h
  split at h
  · have := List.mem_of_mem_drop h
    rcases List.mem_append.mp this with h' | h'
    · exact Or.inl h'
    · simp at h'
      exact Or.inr h'
  · rcases List.mem_append.mp h with h' | h'
    · exact Or.inl h'
    · simp at h'
      exact Or.inr h'

lemma npMedianR_mem_Icc {l : List ℝ} {a b : ℝ} (hne : l ≠ [])
    (h : ∀ x ∈ l, a ≤ x ∧ x ≤ b) : a ≤ npMedianR l ∧ npMedianR l ≤ b := by
  rw [npMedianR]
  have hperm := List.perm_insertionSort (fun x y : ℝ => x ≤ y) l
  have hslen : (List.insertionSort (fun x y : ℝ => x ≤ y) l).length = l.length :=
    hperm.length_eq
  have hmem : ∀ i (hi : i < (List.insertionSort (fun x y : ℝ => x ≤ y) l).length),
      a ≤ (List.insertionSort (fun x y : ℝ => x ≤ y) l).getD i 0
      ∧ (List.insertionSort (fun x y : ℝ => x ≤ y) l).getD i 0 ≤ b := by
    intro i hi
    rw [List.getD_eq_getElem _ _ hi]
    exact h _ (hperm.subset (List.getElem_mem hi))
  have hlen0 : 0 < l.length := List.length_pos.mpr hne
  split
  · exact hmem _ (by omega)
  · have h1 := hmem (l.length / 2 - 1) (by omega)
    have h2 := hmem (l.length / 2) (by omega)
    constructor
    · linarith [h1.1, h2.1]
    · linarith [h1.2, h2.2]

lemma dequePush_length {α : Type} (n : ℕ) (l : List α) (v : α) :
    (dequePush n l v).length = min (l.length + 1) n := by
  rw [dequePush]
  split
  next h =>
    simp at h ⊢
    omega
  next h =>
    simp at h ⊢
    omega

lemma dequePush_ne_nil {α : Type} {n : ℕ} (hn : 0 < n) (l : List α) (v : α) :
    dequePush n l v ≠ [] := by
  have := dequePush_length n l v
  intro hcon
  rw [hcon] at this
  simp at this
  omega

lemma update_tempo_estimate_spec (tr : SongMapPositionTracker) (i : ℕ) (pt : ℝ)
    (hs0 : 0 ≤ tr.tempo_smoothing) (hs1 : tr.tempo_smoothing ≤ 1)
    (hr0 : (0.5 : ℝ) ≤ tr.position.tempo_ratio) (hr1 : tr.position.tempo_ratio ≤ 2)
    (hest : ∀ x ∈ tr.tempo_estimates, (0.5 : ℝ) ≤ x ∧ x ≤ 2) :
    (tr.update_tempo_estimate i pt).performance_start_time
        = tr.performance_start_time
    ∧ (tr.update_tempo_estimate i pt).tempo_smoothing = tr.tempo_smoothing
    ∧ (tr.update_tempo_estimate i pt).position.confidence
        = tr.position.confidence
    ∧ (tr.update_tempo_estimate i pt).position.last_onset_time
        = tr.position.last_onset_time
    ∧ ((0.5 : ℝ) ≤ (tr.update_tempo_estimate i pt).position.tempo_ratio
        ∧ (tr.update_tempo_estimate i pt).position.tempo_ratio ≤ 2)
    ∧ ∀ x ∈ (tr.update_tempo_estimate i pt).tempo_estimates,
        (0.5 : ℝ) ≤ x ∧ x ≤ 2 := by
  cases hlast : tr.position.last_onset_time with
  | none =>
    simp only [SongMapPositionTracker.update_tempo_estimate, hlast]
    refine ⟨?_, ?_, ?_, ?_, ⟨hr0, hr1⟩, hest⟩ <;> trivial
  | some lt =>
    simp only [SongMapPositionTracker.update_tempo_estimate, hlast]
    by_cases hi : 0 < i
    · rw [if_pos hi]
      by_cases hmi : 0 < ((tr.onsets.getD i onsetDflt).time : ℝ)
            - ((tr.onsets.getD (i - 1) onsetDflt).time : ℝ)
          ∧ 0 < pt - lt
      · rw [if_pos hmi]
        have hclip0 : (0.5 : ℝ) ≤ min 2 (max 0.5
            ((((tr.onsets.getD i onsetDflt).time : ℝ)
              - ((tr.onsets.getD (i - 1) onsetDflt).time : ℝ)) / (pt - lt))) :=
          le_min (by norm_num) (le_max_left _ _)
        have hclip1 : min 2 (max 0.5
            ((((tr.onsets.getD i onsetDflt).time : ℝ)
              - ((tr.onsets.getD (i - 1) onsetDflt).time : ℝ)) / (pt - lt))) ≤ 2 :=
          min_le_left _ _
        have hestnew : ∀ x ∈ dequePush 4 tr.tempo_estimates
            (min 2 (max 0.5 ((((tr.onsets.getD i onsetDflt).time : ℝ)
              - ((tr.onsets.getD (i - 1) onsetDflt).time : ℝ)) / (pt - lt)))),
            (0.5 : ℝ) ≤ x ∧ x ≤ 2 := by
          intro x hx
          rcases dequePush_mem hx with h' | h'
          · exact hest x h'
          · subst h'
            exact ⟨hclip0, hclip1⟩
        rw [if_pos (dequePush_ne_nil (by norm_num) _ _)]
        have hmed := npMedianR_mem_Icc (dequePush_ne_nil (by norm_num) _ _) hestnew
        refine ⟨rfl, rfl, rfl, rfl, ⟨?_, ?_⟩, hestnew⟩
        · have e1 : tr.tempo_smoothing * (0.5 : ℝ)
              ≤ tr.tempo_smoothing * npMedianR (dequePush 4 tr.tempo_estimates
                (min 2 (max 0.5 ((((tr.onsets.getD i onsetDflt).time : ℝ)
                  - ((tr.onsets.getD (i - 1) onsetDflt).time : ℝ)) / (pt - lt))))) :=
            mul_le_mul_of_nonneg_left hmed.1 hs0
          have e2 : (1 - tr.tempo_smoothing) * (0.5 : ℝ)
              ≤ (1 - tr.tempo_smoothing) * tr.position.tempo_ratio :=
            mul_le_mul_of_nonneg_left hr0 (by linarith)
          have : tr.tempo_smoothing * (0.5 : ℝ)
              + (1 - tr.tempo_smoothing) * (0.5 : ℝ) = 0.5 := by ring
          linarith
        · have e1 : tr.tempo_smoothing * npMedianR (dequePush 4 tr.tempo_estimates
                (min 2 (max 0.5 ((((tr.onsets.getD i onsetDflt).time : ℝ)
                  - ((tr.onsets.getD (i - 1) onsetDflt).time : ℝ)) / (pt - lt)))))
              ≤ tr.tempo_smoothing * 2 :=
            mul_le_mul_of_nonneg_left hmed.2 hs0
          have e2 : (1 - tr.tempo_smoothing) * tr.position.tempo_ratio
              ≤ (1 - tr.tempo_smoothing) * 2 :=
            mul_le_mul_of_nonneg_left hr1 (by linarith)
          have : tr.tempo_smoothing * (2 : ℝ)
              + (1 - tr.tempo_smoothing) * 2 = 2 := by ring
          linarith
      · rw [if_neg hmi]
        exact ⟨rfl, rfl, rfl, hlast, ⟨hr0, hr1⟩, hest⟩
    · rw [if_neg hi]
      exact ⟨rfl, rfl, rfl, hlast, ⟨hr0, hr1⟩, hest⟩

lemma handle_onset_spec (tr : SongMapPositionTracker) (e : ℝ)
    (hs0 : 0 ≤ tr.tempo_smoothing) (hs1 : tr.tempo_smoothing ≤ 1)
    (hr0 : (0.5 : ℝ) ≤ tr.position.tempo_ratio) (hr1 : tr.position.tempo_ratio ≤ 2)
    (hest : ∀ x ∈ tr.tempo_estimates, (0.5 : ℝ) ≤ x ∧ x ≤ 2)
    (hc0 : 0 ≤ tr.position.confidence) (hc1 : tr.position.confidence ≤ 1) :
    (tr.handle_onset e).performance_start_time = tr.performance_start_time
    ∧ (tr.handle_onset e).tempo_smoothing = tr.tempo_smoothing
    ∧ (0 ≤ (tr.handle_onset e).position.confidence
        ∧ (tr.handle_onset e).position.confidence ≤ 1)
    ∧ ((0.5 : ℝ) ≤ (tr.handle_onset e).position.tempo_ratio
        ∧ (tr.handle_onset e).position.tempo_ratio ≤ 2)
    ∧ (∀ x ∈ (tr.handle_onset e).tempo_estimates, (0.5 : ℝ) ≤ x ∧ x ≤ 2)
    ∧ (∀ v, (tr.handle_onset e).position.last_onset_time = some v →
        v = e ∨ tr.position.last_onset_time = some v) := by
  have hfind := find_matching_onset_bounds
    { tr with recent_onsets := dequePush 8 tr.recent_onsets e } e
  rcases hmc : ({ tr with recent_onsets := dequePush 8 tr.recent_onsets e
      }.find_matching_onset e).1 with _ | idx
  · simp only [SongMapPositionTracker.handle_onset, hmc]
    refine ⟨?_, ?_, ⟨?_, ?_⟩, ⟨?_, ?_⟩, ?_, fun v hv => Or.inr ?_⟩ <;> trivial
  · simp only [SongMapPositionTracker.handle_onset, hmc]
    by_cases hacc : tr.min_onset_confidence
        ≤ ({ tr with recent_onsets := dequePush 8 tr.recent_onsets e
          }.find_matching_onset e).2
    · rw [if_pos hacc]
      have hspec := update_tempo_estimate_spec
        { tr with
          recent_onsets := dequePush 8 tr.recent_onsets e
          position := { tr.position with
            song_time := ((({ tr with
                recent_onsets := dequePush 8 tr.recent_onsets e
              }.onsets.getD idx onsetDflt).time : ℚ) : ℝ)
            section_index := ({ tr with
                recent_onsets := dequePush 8 tr.recent_onsets e
              }.onsets.getD idx onsetDflt).section_index
            line_index := ({ tr with
                recent_onsets := dequePush 8 tr.recent_onsets e
              }.onsets.getD idx onsetDflt).line_index
            syllable_index := ({ tr with
                recent_onsets := dequePush 8 tr.recent_onsets e
              }.onsets.getD idx onsetDflt).syllable_index
            confidence := ({ tr with
                recent_onsets := dequePush 8 tr.recent_onsets e
              }.find_matching_onset e).2
            last_onset_time := some e } }
        idx e hs0 hs1 hr0 hr1 hest
      refine ⟨hspec.1, hspec.2.1, ?_, hspec.2.2.2.2.1, hspec.2.2.2.2.2, ?_⟩
      · rw [hspec.2.2.1]
        exact hfind
      · intro v hv
        rw [hspec.2.2.2.1] at hv
        simp at hv
        exact Or.inl hv.symm
    · rw [if_neg hacc]
      exact ⟨rfl, rfl, ⟨hc0, hc1⟩, ⟨hr0, hr1⟩, hest,
        fun v hv => Or.inr hv⟩

lemma update_position_from_song_time_spec (tr : SongMapPositionTracker) :
    tr.update_position_from_song_time.performance_start_time
        = tr.performance_start_time
    ∧ tr.update_position_from_song_time.tempo_smoothing = tr.tempo_smoothing
    ∧ tr.update_position_from_song_time.position.confidence
        = tr.position.confidence
    ∧ tr.update_position_from_song_time.position.tempo_ratio
        = tr.position.tempo_ratio
    ∧ tr.update_position_from_song_time.position.last_onset_time
        = tr.position.last_onset_time
    ∧ tr.update_position_from_song_time.tempo_estimates = tr.tempo_estimates := by
  simp only [SongMapPositionTracker.update_position_from_song_time]
  split
  · exact ⟨rfl, rfl, rfl, rfl, rfl, rfl⟩
  · exact ⟨rfl, rfl, rfl, rfl, rfl, rfl⟩

lemma extrapolate_position_spec (tr : SongMapPositionTracker) (e : ℝ)
    (hc0 : 0 ≤ tr.position.confidence) (hc1 : tr.position.confidence ≤ 1)
    (hlast : ∀ v, tr.position.last_onset_time = some v → v ≤ e) :
    (tr.extrapolate_position e).performance_start_time
        = tr.performance_start_time
    ∧ (tr.extrapolate_position e).tempo_smoothing = tr.tempo_smoothing
    ∧ (0 ≤ (tr.extrapolate_position e).position.confidence
        ∧ (tr.extrapolate_position e).position.confidence ≤ 1)
    ∧ (tr.extrapolate_position e).position.tempo_ratio = tr.position.tempo_ratio
    ∧ (tr.extrapolate_position e).position.last_onset_time
        = tr.position.last_onset_time
    ∧ (tr.extrapolate_position e).tempo_estimates = tr.tempo_estimates := by
  cases hl : tr.position.last_onset_time with
  | none =>
    simp only [SongMapPositionTracker.extrapolate_position, hl]
    refine ⟨?_, ?_, ⟨?_, ?_⟩, ?_, ?_, ?_⟩ <;> first | trivial | norm_num
  | some v =>
    have hve : v ≤ e := hlast v hl
    simp only [SongMapPositionTracker.extrapolate_position, hl]
    have hspec := update_position_from_song_time_spec
      { tr with position :=
          { song_time := tr.position.song_time + (e - v) * tr.position.tempo_ratio
            section_index := tr.position.section_index
            line_index := tr.position.line_index
            syllable_index := tr.position.syllable_index
            confidence := tr.position.confidence * Real.exp (-((e - v) * 0.693))
            tempo_ratio := tr.position.tempo_ratio
            last_onset_time := some v } }
    have hd0 : 0 < Real.exp (-((e - v) * 0.693)) := Real.exp_pos _
    have hd1 : Real.exp (-((e - v) * 0.693)) ≤ 1 := by
      rw [Real.exp_le_one_iff]
      nlinarith
    refine ⟨hspec.1, hspec.2.1, ⟨?_, ?_⟩, ?_, ?_, hspec.2.2.2.2.2⟩
    · rw [hspec.2.2.1]
      exact mul_nonneg hc0 (le_of_lt hd0)
    · rw [hspec.2.2.1]
      nlinarith
    · rw [hspec.2.2.2.1]
    · rw [hspec.2.2.2.2.1]

/-- The session invariant behind claim C1: the start reference is fixed, the
configured smoothing lies in [0,1], the position bounds hold, every rolling
tempo estimate is clamped, and the last matched onset time never exceeds the
elapsed time of the most recent call (`prev` is that call's timestamp). -/
structure TrackerInv (t0 : ℝ) (prev : Option ℝ)
    (tr : SongMapPositionTracker) : Prop where
  start_ref : tr.performance_start_time = some t0
  smoothing_lo : 0 ≤ tr.tempo_smoothing
  smoothing_hi : tr.tempo_smoothing ≤ 1
  conf_lo : 0 ≤ tr.position.confidence
  conf_hi : tr.position.confidence ≤ 1
  ratio_lo : (0.5 : ℝ) ≤ tr.position.tempo_ratio
  ratio_hi : tr.position.tempo_ratio ≤ 2
  est_bounds : ∀ x ∈ tr.tempo_estimates, (0.5 : ℝ) ≤ x ∧ x ≤ 2
  last_onset_le : ∀ v, tr.position.last_onset_time = some v →
    ∃ p, prev = some p ∧ v ≤ p - t0

lemma update_step_inv {t0 : ℝ} {prev : Option ℝ} {tr : SongMapPositionTracker}
    (inv : TrackerInv t0 prev tr) (b : Bool) (t : ℝ)
    (hmono : ∀ p, prev = some p → p ≤ t) :
    TrackerInv t0 (some t) (tr.update b (some t) 0) := by
  have hlast : ∀ v, tr.position.last_onset_time = some v → v ≤ t - t0 := by
    intro v hv
    obtain ⟨p, hp, hvp⟩ := inv.last_onset_le v hv
    have := hmono p hp
    linarith
  cases b with
  | true =>
    have hred : tr.update true (some t) 0
        = { tr.handle_onset (t - t0) with last_update_time := some t } := by
      simp only [SongMapPositionTracker.update, inv.start_ref, Option.getD_some,
        if_true]
    have hspec := handle_onset_spec tr (t - t0) inv.smoothing_lo inv.smoothing_hi
      inv.ratio_lo inv.ratio_hi inv.est_bounds inv.conf_lo inv.conf_hi
    rw [hred]
    refine ⟨?_, ?_, ?_, ?_, ?_, ?_, ?_, ?_, ?_⟩
    · show (tr.handle_onset (t - t0)).performance_start_time = some t0
      rw [hspec.1, inv.start_ref]
    · show 0 ≤ (tr.handle_onset (t - t0)).tempo_smoothing
      rw [hspec.2.1]
      exact inv.smoothing_lo
    · show (tr.handle_onset (t - t0)).tempo_smoothing ≤ 1
      rw [hspec.2.1]
      exact inv.smoothing_hi
    · exact hspec.2.2.1.1
    · exact hspec.2.2.1.2
    · exact hspec.2.2.2.1.1
    · exact hspec.2.2.2.1.2
    · exact hspec.2.2.2.2.1
    · intro v hv
      have hv' : (tr.handle_onset (t - t0)).position.last_onset_time = some v := hv
      rcases hspec.2.2.2.2.2 v hv' with h' | h'
      · exact ⟨t, rfl, by rw [h']⟩
      · exact ⟨t, rfl, hlast v h'⟩
  | false =>
    have hred : tr.update false (some t) 0
        = { tr.extrapolate_position (t - t0) with last_update_time := some t } := by
      simp only [SongMapPositionTracker.update, inv.start_ref, Option.getD_some,
        Bool.false_eq_true, if_false]
    have hspec := extrapolate_position_spec tr (t - t0) inv.conf_lo inv.conf_hi
      hlast
    rw [hred]
    refine ⟨?_, ?_, ?_, ?_, ?_, ?_, ?_, ?_, ?_⟩
    · show (tr.extrapolate_position (t - t0)).performance_start_time = some t0
      rw [hspec.1, inv.start_ref]
    · show 0 ≤ (tr.extrapolate_position (t - t0)).tempo_smoothing
      rw [hspec.2.1]
      exact inv.smoothing_lo
    · show (tr.extrapolate_position (t - t0)).tempo_smoothing ≤ 1
      rw [hspec.2.1]
      exact inv.smoothing_hi
    · exact hspec.2.2.1.1
    · exact hspec.2.2.1.2
    · show (0.5 : ℝ) ≤ (tr.extrapolate_position (t - t0)).position.tempo_ratio
      rw [hspec.2.2.2.1]
      exact inv.ratio_lo
    · show (tr.extrapolate_position (t - t0)).position.tempo_ratio ≤ 2
      rw [hspec.2.2.2.1]
      exact inv.ratio_hi
    · show ∀ x ∈ (tr.extrapolate_position (t - t0)).tempo_estimates,
        (0.5 : ℝ) ≤ x ∧ x ≤ 2
      rw [hspec.2.2.2.2.2]
      exact inv.est_bounds
    · intro v hv
      have hv' : (tr.extrapolate_position (t - t0)).position.last_onset_time
          = some v := hv
      rw [hspec.2.2.2.2.1] at hv'
      exact ⟨t, rfl, hlast v hv'⟩

lemma start_inv (tr : SongMapPositionTracker) (t0 : ℝ)
    (hs0 : 0 ≤ tr.tempo_smoothing) (hs1 : tr.tempo_smoothing ≤ 1) :
    TrackerInv t0 none (tr.start t0) :=
  ⟨rfl, hs0, hs1, by norm_num [SongMapPositionTracker.start],
    by norm_num [SongMapPositionTracker.start],
    by norm_num [SongMapPositionTracker.start],
    by norm_num [SongMapPositionTracker.start],
    by simp [SongMapPositionTracker.start],
    by simp [SongMapPositionTracker.start]⟩

lemma runCalls_inv : ∀ (calls : List (Bool × ℝ)) (tr : SongMapPositionTracker)
    (t0 p : ℝ), TrackerInv t0 (some p) tr →
    List.Chain (fun a b : ℝ => a ≤ b) p (calls.map Prod.snd) →
    ∃ p2, TrackerInv t0 (some p2) (runCalls tr calls) := by
  intro calls
  induction calls with
  | nil =>
    intro tr t0 p inv hch
    exact ⟨p, inv⟩
  | cons c cs ih =>
    intro tr t0 p inv hch
    rw [List.map_cons] at hch
    obtain ⟨hpc, hch2⟩ := List.chain_cons.mp hch
    have inv2 := update_step_inv inv c.1 c.2
      (fun q hq => by rw [← Option.some.inj hq]; exact hpc)
    have hrun : runCalls tr (c :: cs)
        = runCalls (tr.update c.1 (some c.2) 0) cs := rfl
    rw [hrun]
    exact ih _ t0 c.2 inv2 hch2

/-- Claim C1 (amended): for every Song Map and every sequence of
update(onset_detected, current_time) calls whose timestamps are
non-decreasing, after every call confidence lies in [0,1] and tempo_ratio
in [0.5,2.0].  (With a clock-skewed, decreasing timestamp the confidence
bound fails; see the counterexample.) -/
theorem C1_confidence_tempo_bounds (sm : SongMap) (t0 : ℝ)
    (calls : List (Bool × ℝ))
    (hmono : List.Chain' (fun a b : ℝ => a ≤ b) (calls.map Prod.snd)) :
    (0 ≤ (runCalls ((mkTracker sm).start t0) calls).position.confidence
      ∧ (runCalls ((mkTracker sm).start t0) calls).position.confidence ≤ 1)
    ∧ ((0.5 : ℝ) ≤ (runCalls ((mkTracker sm).start t0) calls).position.tempo_ratio
      ∧ (runCalls ((mkTracker sm).start t0) calls).position.tempo_ratio ≤ 2) := by
  have hs0 : 0 ≤ (mkTracker sm).tempo_smoothing := by norm_num [mkTracker]
  have hs1 : (mkTracker sm).tempo_smoothing ≤ 1 := by norm_num [mkTracker]
  have hstart := start_inv (mkTracker sm) t0 hs0 hs1
  cases calls with
  | nil =>
    exact ⟨⟨hstart.conf_lo, hstart.conf_hi⟩, ⟨hstart.ratio_lo, hstart.ratio_hi⟩⟩
  | cons c cs =>
    have hch : List.Chain (fun a b : ℝ => a ≤ b) c.2 (cs.map Prod.snd) := by
      rw [List.map_cons] at hmono
      exact hmono
    have hinv1 := update_step_inv hstart c.1 c.2 (fun p hp => nomatch hp)
    have hrun : runCalls ((mkTracker sm).start t0) (c :: cs)
        = runCalls (((mkTracker sm).start t0).update c.1 (some c.2) 0) cs := rfl
    rw [hrun]
    obtain ⟨p2, hinv⟩ := runCalls_inv cs _ t0 c.2 hinv1 hch
    exact ⟨⟨hinv.conf_lo, hinv.conf_hi⟩, ⟨hinv.ratio_lo, hinv.ratio_hi⟩⟩

/-- A one-syllable demo Song Map: a single onset at 1.0 s. -/
def demoMap : SongMap :=
  ⟨[⟨"Verse 1", [⟨[⟨"la", 1, 1, none⟩]⟩]⟩]⟩

/-- Witness for the amended C1 on a concrete monotone two-call session. -/
theorem C1_confidence_tempo_bounds_witness :
    List.Chain' (fun a b : ℝ => a ≤ b)
      (([(true, (1 : ℝ)), (false, 2)]).map Prod.snd)
    ∧ ((0 ≤ (runCalls ((mkTracker demoMap).start 0)
            [(true, 1), (false, 2)]).position.confidence
        ∧ (runCalls ((mkTracker demoMap).start 0)
            [(true, 1), (false, 2)]).position.confidence ≤ 1)
      ∧ ((0.5 : ℝ) ≤ (runCalls ((mkTracker demoMap).start 0)
            [(true, 1), (false, 2)]).position.tempo_ratio
        ∧ (runCalls ((mkTracker demoMap).start 0)
            [(true, 1), (false, 2)]).position.tempo_ratio ≤ 2)) :=
  ⟨by simp,
    C1_confidence_tempo_bounds demoMap 0 [(true, 1), (false, 2)] (by simp)⟩

lemma demo_onsets : parseOnsets demoMap = [⟨1, 0, 0, 0, none, none, 1⟩] := by
  rfl

lemma demo_range21 : List.range 21
    = [0, 1, 2, 3, 4, 5, 6, 7, 8, 9, 10,
       11, 12, 13, 14, 15, 16, 17, 18, 19, 20] := by
  rfl

/-- Evaluating the first (matching) update of the demo session: the single
map onset at 1.0 s is detected at elapsed time 1.0 and matched with
confidence 1. -/
lemma demo_match_eval :
    ((mkTracker demoMap).start 0).update true (some 1) 0
      = { onset_match_window := 0.15
          min_onset_confidence := 0.6
          tempo_smoothing := 0.3
          onsets := [⟨1, 0, 0, 0, none, none, 1⟩]
          onset_times := [1]
          position := ⟨1, 0, 0, 0, 1, 1, some 1⟩
          recent_onsets := [1]
          performance_start_time := some 0
          last_update_time := some 1
          tempo_estimates := []
          expected_next_onset_idx := some 1 } := by
  simp only [SongMapPositionTracker.update, SongMapPositionTracker.start,
    mkTracker, demo_onsets, Option.getD_some,
    SongMapPositionTracker.handle_onset,
    SongMapPositionTracker.find_matching_onset, findStep, bisectLeft,
    SongMapPositionTracker.update_tempo_estimate, dequePush, onsetDflt,
    demo_range21, List.foldl_cons, List.foldl_nil, List.map_cons, List.map_nil]
  norm_num

/-- Claim C1 counterexample: timestamps may go backwards ("clock skew" is
explicitly allowed by the claim), and then the extrapolation decay factor
e^(-0.693 dt) has dt < 0 and exceeds 1: after start() at 0 and a matched
onset at time 1 (confidence exactly 1), the call update(False, 0.5) leaves
confidence e^(0.3465) > 1, outside [0,1]. -/
theorem C1_skew_counterexample :
    1 < ((((mkTracker demoMap).start 0).update true (some 1) 0).update false
      (some (1 / 2)) 0).position.confidence := by
  have hred : ((((mkTracker demoMap).start 0).update true (some 1) 0).update
        false (some (1 / 2)) 0).position.confidence
      = Real.exp (693 / 2000) := by
    rw [demo_match_eval]
    simp only [SongMapPositionTracker.update,
      SongMapPositionTracker.extrapolate_position,
      SongMapPositionTracker.update_position_from_song_time,
      Option.getD_some, onsetDflt]
    norm_num [bisectLeft]
  rw [hred]
  exact Real.one_lt_exp_iff.mpr (by norm_num)

/-- Claim C2 states the code's own intent (the inline comment says
"Half-life of 1 second", "decays to 0.5 after 1 second") but the code
multiplies confidence by e^(-0.693 dt) with dt the time since the last
ONSET on every extrapolation tick, so consecutive ticks compound.  After a
match at time 1 with confidence c0 = 1, ticks update(False, 1.5) and
update(False, 2.0) leave e^(-0.693*0.5) * e^(-0.693*1.0) = e^(-0.693*1.5),
below 75 percent of the claimed c0 * e^(-0.693*1.0), and drifting further
with every additional tick in the same gap. -/
theorem C2_decay_compounds :
    (((((mkTracker demoMap).start 0).update true (some 1) 0).update false
        (some (3 / 2)) 0).update false (some 2) 0).position.confidence
      = Real.exp (-(693 / 2000)) * Real.exp (-(693 / 1000))
    ∧ (((((mkTracker demoMap).start 0).update true (some 1) 0).update false
        (some (3 / 2)) 0).update false (some 2) 0).position.confidence
      < (3 / 4) * Real.exp (-(693 / 1000)) := by
  have hred : (((((mkTracker demoMap).start 0).update true (some 1) 0).update
        false (some (3 / 2)) 0).update false (some 2) 0).position.confidence
      = Real.exp (-(693 / 2000)) * Real.exp (-(693 / 1000)) := by
    rw [demo_match_eval]
    simp only [SongMapPositionTracker.update,
      SongMapPositionTracker.extrapolate_position,
      SongMapPositionTracker.update_position_from_song_time,
      Option.getD_some, onsetDflt]
    norm_num [bisectLeft]
  refine ⟨hred, ?_⟩
  rw [hred]
  have hpos := Real.exp_pos (-(693 / 1000) : ℝ)
  have hlt : Real.exp (-(693 / 2000) : ℝ) < 3 / 4 := by
    have h1 := Real.add_one_le_exp (693 / 2000 : ℝ)
    have h2 : Real.exp (-(693 / 2000) : ℝ) = 1 / Real.exp (693 / 2000) := by
      rw [Real.exp_neg]
      ring
    rw [h2, div_lt_iff₀ (Real.exp_pos _)]
    nlinarith
  nlinarith

/-- `_find_matching_onset` does not read `recent_onsets`, so the push that
`_handle_onset` performs first does not affect the search. -/
lemma find_matching_onset_recent_invariant (tr : SongMapPositionTracker)
    (x : List ℝ) (pt : ℝ) :
    ({ tr with recent_onsets := x } : SongMapPositionTracker
      ).find_matching_onset pt = tr.find_matching_onset pt := rfl

/-- Claim C6: an update(True, t) in which the candidate search produces no
match at or above min_onset_confidence leaves every field of the
PerformerPosition — song_time, indices, confidence, tempo_ratio,
last_onset_time — exactly as before the call (tracker already started). -/
theorem C6_no_match_keeps_position (tr : SongMapPositionTracker) (t0 ct : ℝ)
    (hstart : tr.performance_start_time = some t0)
    (hnomatch : (tr.find_matching_onset (ct - t0)).1 = none
      ∨ (tr.find_matching_onset (ct - t0)).2 < tr.min_onset_confidence) :
    (tr.update true (some ct) 0).position = tr.position := by
  have hred : tr.update true (some ct) 0
      = { tr.handle_onset (ct - t0) with last_update_time := some ct } := by
    simp only [SongMapPositionTracker.update, hstart, Option.getD_some, if_true]
  rw [hred]
  show (tr.handle_onset (ct - t0)).position = tr.position
  rcases hmc : (tr.find_matching_onset (ct - t0)).1 with _ | idx
  · simp only [SongMapPositionTracker.handle_onset,
      find_matching_onset_recent_invariant, hmc]
  · simp only [SongMapPositionTracker.handle_onset,
      find_matching_onset_recent_invariant, hmc]
    rcases hnomatch with h | h
    · rw [hmc] at h
      exact absurd h (by simp)
    · rw [if_neg (not_le.mpr h)]

/-- A Song Map with no sections at all (hence zero onsets). -/
def emptyMap : SongMap := ⟨[]⟩

/-- Witness for C6: with an empty Song Map the search finds nothing and an
onset tick leaves the position untouched. -/
theorem C6_no_match_keeps_position_witness :
    (((mkTracker emptyMap).start 0).performance_start_time = some 0)
    ∧ (((((mkTracker emptyMap).start 0).find_matching_onset ((1 : ℝ) - 0)).1 = none)
        ∨ ((((mkTracker emptyMap).start 0).find_matching_onset ((1 : ℝ) - 0)).2
            < ((mkTracker emptyMap).start 0).min_onset_confidence))
    ∧ ((((mkTracker emptyMap).start 0).update true (some 1) 0).position
        = ((mkTracker emptyMap).start 0).position) :=
  ⟨rfl, Or.inl (by rw [SongMapPositionTracker.find_matching_onset,
        if_pos (show ((mkTracker emptyMap).start 0).onsets = ([] : List SongMapOnset)
          from rfl)]),
    C6_no_match_keeps_position _ 0 1 rfl
      (Or.inl (by rw [SongMapPositionTracker.find_matching_onset,
        if_pos (show ((mkTracker emptyMap).start 0).onsets = ([] : List SongMapOnset)
          from rfl)]))⟩

/-- Claim C9: update() on a never-started tracker does not fail; it
performs start() first, resetting the position to song_time 0, indices 0,
confidence 0, tempo_ratio 1.0, and takes the wall clock `now` (not the
caller-supplied current_time) as the performance start reference, before
processing the tick. -/
theorem C9_autostart (tr : SongMapPositionTracker) (b : Bool)
    (ct : Option ℝ) (now : ℝ) (hns : tr.performance_start_time = none) :
    tr.update b ct now = (tr.start now).update b ct now
    ∧ (tr.start now).position = ⟨0, 0, 0, 0, 0, 1, none⟩
    ∧ (tr.start now).performance_start_time = some now := by
  refine ⟨?_, rfl, rfl⟩
  simp only [SongMapPositionTracker.update, SongMapPositionTracker.start, hns]

/-- Witness for C9 on a freshly constructed tracker. -/
theorem C9_autostart_witness :
    (mkTracker demoMap).performance_start_time = none
    ∧ ((mkTracker demoMap).update false (some 5) 2
        = ((mkTracker demoMap).start 2).update false (some 5) 2
      ∧ ((mkTracker demoMap).start 2).position = ⟨0, 0, 0, 0, 0, 1, none⟩
      ∧ ((mkTracker demoMap).start 2).performance_start_time = some 2) :=
  ⟨rfl, C9_autostart (mkTracker demoMap) false (some 5) 2 rfl⟩
